import Mathlib

/-!
Shallow embedding of the leaderboard core (parser.js, storage.js, renderer.js)
of the Turbostarow/v3 repository, together with proofs settling the frozen
specification claims.

Modelling conventions:
* JS strings are modelled as Lean `String`/`List Char`; all content relevant to
  the claims is ASCII, so UTF-16 subtleties are out of scope.
* JS numbers appearing in roster payloads are integers produced by `parseInt`;
  they are modelled as `Int`/`Nat` (and as `Rat` inside the JSON value model so
  that fractional JSON numerals still parse).
* JS `Date` objects are modelled by their millisecond-since-epoch value; an
  `Option Int` with `none` standing for an Invalid Date (NaN time value).
  The host timezone is modelled as UTC.
* Mutation (`upsertPlayer` mutates its array) is modelled by returning the new
  array; a thrown exception is modelled by an `Option` result being `none`.
-/

set_option maxHeartbeats 2000000
set_option maxRecDepth 4096

namespace LB

/-- JS whitespace characters: the set matched by the regex class `\s` and
trimmed by `String.prototype.trim` (WhiteSpace ∪ LineTerminator). -/
def isJsWs (c : Char) : Bool :=
  let n := c.toNat
  n == 9 || n == 10 || n == 11 || n == 12 || n == 13 || n == 32 ||
  n == 0xa0 || n == 0x1680 || (0x2000 ≤ n && n ≤ 0x200a) ||
  n == 0x2028 || n == 0x2029 || n == 0x202f || n == 0x205f ||
  n == 0x3000 || n == 0xfeff

/-- JS line terminators: the characters NOT matched by the regex `.`
(dotAll flag absent): LF, CR, LS, PS. -/

def isLineTerm (c : Char) : Bool :=
  let n := c.toNat
  n == 10 || n == 13 || n == 0x2028 || n == 0x2029

/-- ASCII decimal digit, the regex class `\d`. -/
def isAsciiDigit (c : Char) : Bool := 48 ≤ c.toNat && c.toNat ≤ 57

/-- Lower-casing of a single character as `String.prototype.toLowerCase`
acts on the ASCII range (all strings compared by the program are ASCII). -/

def toLowerChar (c : Char) : Char :=
  if 65 ≤ c.toNat && c.toNat ≤ 90 then Char.ofNat (c.toNat + 32) else c

/-- Model of `s.toLowerCase()` on ASCII strings. -/
def jsToLower (s : String) : String := String.mk (s.data.map toLowerChar)

/-- Case-insensitive equality of single characters. -/
def ciEqChar (a b : Char) : Bool := toLowerChar a == toLowerChar b

/-- Check whether `pat` is a case-insensitive starting segment of `s`. -/
def ciStarts : List Char → List Char → Bool
  | [], _ => true
  | _ :: _, [] => false
  | p :: ps, c :: cs => ciEqChar p c && ciStarts ps cs

/-- Drop JS whitespace from the back of a character list. -/
def dropTrailWs (l : List Char) : List Char :=
  (l.reverse.dropWhile isJsWs).reverse

/-- Model of `String.prototype.trim` on a character list. -/
def jsTrimL (l : List Char) : List Char :=
  dropTrailWs (l.dropWhile isJsWs)

/-- Model of `s.trim()`. -/
def jsTrim (s : String) : String := String.mk (jsTrimL s.data)

-- ── Rank vocabularies (parser.js) ─────────────────────────────

/-- Marvel Rivals ranks in ascending order (index = value for comparison). -/
def MR_RANKS : List String :=
  ["Bronze", "Silver", "Gold", "Platinum", "Diamond",
   "Grandmaster", "Celestial", "Eternity", "One Above All"]

/-- Overwatch ranks in ascending order. -/
def OW_RANKS : List String :=
  ["Bronze", "Silver", "Gold", "Platinum", "Diamond",
   "Master", "Grandmaster", "Champion", "Top 500"]

/-- Deadlock ranks in ascending order. -/
def DL_RANKS : List String :=
  ["Initiate", "Seeker", "Alchemist", "Arcanist",
   "Ritualist", "Emissary", "Archon", "Oracle",
   "Phantom", "Ascendant", "Eternus"]

/-- Numeric rank index for comparison (higher = better); `findIndex` returns
−1 when the name is not in the list (parser.js `rankIndex`). -/

def rankIndex (rankName : String) (rankList : List String) : Int :=
  match rankList.findIdx? (fun r => jsToLower r == jsToLower rankName) with
  | some i => (i : Int)
  | none => -1

-- ── Player records as consumed by the comparators (renderer.js) ──

/-- Fields of an Overwatch roster record read by `sortOverwatch`. -/
structure OWPlayer where
  playerName : String
  role : String
  rankCurrent : String
  tierCurrent : Int
  currentValue : Int
  rankPeak : String
  tierPeak : Int
  peakValue : Int
  date : Int
  deriving DecidableEq, Repr

/-- Fields of a Deadlock roster record read by `sortDeadlock`. -/
structure DLPlayer where
  playerName : String
  hero : String
  rankCurrent : String
  tierCurrent : Int
  currentValue : Int
  date : Int
  deriving DecidableEq, Repr

-- ── Comparators (renderer.js) ─────────────────────────────────

/-- Comparator of `sortOverwatch` (renderer.js lines 99–129).  The early
`return` statements are modelled by the `Option` short-circuit for the
tier block; dates are millisecond values so `new Date(b.date) - new
Date(a.date)` is plain subtraction. -/

def cmpOverwatch (a b : OWPlayer) : Int :=
  let rankDiff := rankIndex b.rankCurrent OW_RANKS - rankIndex a.rankCurrent OW_RANKS
  if rankDiff ≠ 0 then rankDiff else
  let isTop500A := a.rankCurrent == "Top 500"
  let isTop500B := b.rankCurrent == "Top 500"
  let tierRes : Option Int :=
    if isTop500A && isTop500B then
      -- Lower tier number = better rank for Top 500
      let top500Diff := a.tierCurrent - b.tierCurrent
      if top500Diff ≠ 0 then some top500Diff else none
    else
      -- Normal tier comparison
      let tierDiff := a.tierCurrent - b.tierCurrent
      if tierDiff ≠ 0 then some tierDiff else none
  match tierRes with
  | some d => d
  | none =>
    let peakRankDiff := rankIndex b.rankPeak OW_RANKS - rankIndex a.rankPeak OW_RANKS
    if peakRankDiff ≠ 0 then peakRankDiff else
    let peakTierDiff := a.tierPeak - b.tierPeak
    if peakTierDiff ≠ 0 then peakTierDiff else
    b.date - a.date

/-- Comparator of `sortDeadlock` (renderer.js lines 132–149). -/
def cmpDeadlock (a b : DLPlayer) : Int :=
  let rankDiff := rankIndex b.rankCurrent DL_RANKS - rankIndex a.rankCurrent DL_RANKS
  if rankDiff ≠ 0 then rankDiff else
  let tierDiff := b.tierCurrent - a.tierCurrent
  if tierDiff ≠ 0 then tierDiff else
  let valueDiff := a.currentValue - b.currentValue
  if valueDiff ≠ 0 then valueDiff else
  b.date - a.date

/-- Stable insertion of an element into an already sorted list: the element
goes after every element that does not compare strictly greater. -/

def insertCmp (cmp : α → α → Int) (x : α) : List α → List α
  | [] => [x]
  | y :: ys => if cmp y x ≤ 0 then y :: insertCmp cmp x ys else x :: y :: ys

/-- Model of `Array.prototype.sort` with a consistent comparator: a stable
sort by the comparator (JS `sort` is required to be stable). -/

def jsSortBy (cmp : α → α → Int) (l : List α) : List α :=
  l.foldl (fun acc x => insertCmp cmp x acc) []

/-- Model of `sortOverwatch`: non-mutating (`[...players].sort`), stable. -/
def sortOverwatch (players : List OWPlayer) : List OWPlayer :=
  jsSortBy cmpOverwatch players

/-- Model of `sortDeadlock`: non-mutating (`[...players].sort`), stable. -/
def sortDeadlock (players : List DLPlayer) : List DLPlayer :=
  jsSortBy cmpDeadlock players

-- ── Comparator lemmas ─────────────────────────────────────────

-- ── Decimal numerals ──────────────────────────────────────────

/-- Numeric value of an ASCII digit character. -/
def digitVal (c : Char) : Nat := c.toNat - 48

/-- Digit character for a value below ten. -/
def digitCh (n : Nat) : Char :=
  match n with
  | 0 => '0' | 1 => '1' | 2 => '2' | 3 => '3' | 4 => '4'
  | 5 => '5' | 6 => '6' | 7 => '7' | 8 => '8' | _ => '9'

/-- Fuel-driven accumulator loop producing decimal digits; structural in
the fuel so that it evaluates by kernel reduction. -/

def natDecAux : Nat → Nat → List Char → List Char
  | 0, _, acc => acc
  | fuel + 1, n, acc =>
    if n < 10 then digitCh n :: acc
    else natDecAux fuel (n / 10) (digitCh (n % 10) :: acc)

/-- Decimal digits of a natural number, most significant first. -/
def natDecDigits (n : Nat) : List Char := natDecAux (n + 1) n []

/-- Value of a digit string read left to right (model of `parseInt(s, 10)`
on an all-digit string). -/

def digitsToNat (l : List Char) : Nat :=
  l.foldl (fun acc c => acc * 10 + digitVal c) 0

/-- Read exactly `n` digit characters from the front of a list. -/
def takeDigitsN (n : Nat) (l : List Char) : Option (Nat × List Char) :=
  let pre := l.take n
  if pre.length = n && pre.all isAsciiDigit then some (digitsToNat pre, l.drop n)
  else none

-- ── JS values ─────────────────────────────────────────────────

/-- Model of the JS values flowing through the roster code: JSON values
plus `Date` objects.  A `Date` carries its millisecond time value, `none`
standing for an Invalid Date (NaN time value).  A JSON number is modelled
exactly as the decimal `m * 10 ^ e` in canonical form (`m` not a multiple
of ten unless zero); the roster payloads only ever contain integers
(`0 ≤ e`).  Binary-double rounding is not modelled. -/

inductive JVal where
  | null
  | bool (b : Bool)
  | num (m : Int) (e : Int)
  | str (s : String)
  | arr (elems : List JVal)
  | obj (fields : List (String × JVal))
  | date (ms : Option Int)

/-- JS truthiness of a value (`undefined` is modelled as an absent
`Option`, handled at each use site). -/

def jsTruthy : JVal → Bool
  | .null => false
  | .bool b => b
  | .num m _ => m != 0
  | .str s => s != ""
  | .arr _ => true
  | .obj _ => true
  | .date _ => true

/-- ECMAScript `TimeClip`: time values beyond ±8.64e15 ms denote an
Invalid Date. -/

def timeClip (t : Int) : Option Int :=
  if t.natAbs ≤ 8640000000000000 then some t else none

-- ── Civil calendar arithmetic (proleptic Gregorian, UTC) ──────

/-- Day number (days since 1970-01-01) of a civil date, the arithmetic of
ECMAScript `MakeDay` (Howard Hinnant's `days_from_civil`). -/

def daysFromCivil (y m d : Int) : Int :=
  let y' := if m ≤ 2 then y - 1 else y
  let era := Int.fdiv y' 400
  let yoe := y' - era * 400
  let mp := Int.fmod (m + 9) 12
  let doy := Int.fdiv (153 * mp + 2) 5 + d - 1
  let doe := yoe * 365 + Int.fdiv yoe 4 - Int.fdiv yoe 100 + doy
  era * 146097 + doe - 719468

/-- Civil date (year, month, day) of a day number (inverse of
`daysFromCivil`, Hinnant's `civil_from_days`). -/

def civilFromDays (z0 : Int) : Int × Int × Int :=
  let z := z0 + 719468
  let era := Int.fdiv z 146097
  let doe := z - era * 146097
  let yoe := Int.fdiv (doe - Int.fdiv doe 1460 + Int.fdiv doe 36524 - Int.fdiv doe 146096) 365
  let y := yoe + era * 400
  let doy := doe - (365 * yoe + Int.fdiv yoe 4 - Int.fdiv yoe 100)
  let mp := Int.fdiv (5 * doy + 2) 153
  let d := doy - Int.fdiv (153 * mp + 2) 5 + 1
  let m := if mp < 10 then mp + 3 else mp - 9
  (if m ≤ 2 then y + 1 else y, m, d)

-- ── ISO date-time strings ─────────────────────────────────────

/-- Parse the time-of-day portion `THH:mm[:ss[.sss]]` of a Date Time
String, returning milliseconds into the day and the remaining input. -/

def parseTimePart (l : List Char) : Option (Int × List Char) :=
  match l with
  | 'T' :: t =>
    match takeDigitsN 2 t with
    | none => none
    | some (hh, r1) =>
      match r1 with
      | ':' :: r2 =>
        match takeDigitsN 2 r2 with
        | none => none
        | some (mm, r3) =>
          let more : Option (Nat × Nat × List Char) :=
            match r3 with
            | ':' :: r4 =>
              match takeDigitsN 2 r4 with
              | none => none
              | some (ss, r5) =>
                match r5 with
                | '.' :: r6 =>
                  match takeDigitsN 3 r6 with
                  | none => none
                  | some (ms, r7) => some (ss, ms, r7)
                | _ => some (ss, 0, r5)
            | _ => some (0, 0, r3)
          match more with
          | none => none
          | some (ss, ms, r) =>
            if hh > 24 || mm > 59 || ss > 59 then none
            else if hh = 24 && (mm ≠ 0 || ss ≠ 0 || ms ≠ 0) then none
            else some (((hh * 3600000 + mm * 60000 + ss * 1000 + ms : Nat) : Int), r)
      | _ => none
  | _ => none

/-- Parse the offset portion: end of input (host local time, modelled as
UTC), `Z`, or `±HH:mm`; returns the offset in milliseconds. -/

def parseOffsetPart (l : List Char) : Option Int :=
  match l with
  | [] => some 0
  | ['Z'] => some 0
  | sign :: t =>
    if sign = '+' || sign = '-' then
      match takeDigitsN 2 t with
      | none => none
      | some (hh, r1) =>
        match r1 with
        | ':' :: r2 =>
          match takeDigitsN 2 r2 with
          | some (mm, []) =>
            if hh > 23 || mm > 59 then none
            else
              let off : Int := (hh * 3600000 + mm * 60000 : Nat)
              some (if sign = '-' then -off else off)
          | _ => none
        | _ => none
    else none

/-- Model of `new Date(string)` on the ECMAScript Date Time String Format
(the ISO 8601 family): `[±YYYYYY|YYYY][-MM[-DD]][THH:mm[:ss[.sss]]][Z|±HH:mm]`.
Strings outside this family (the engine-specific legacy formats) are not
modelled and map to an Invalid Date; the stored roster timestamps are all
`toISOString` output, which is inside the family.  The host timezone is
modelled as UTC, so a missing offset behaves like `Z`. -/

def parseJsDateL (l : List Char) : Option Int :=
  let yearPart : Option (Int × List Char) :=
    match l with
    | '+' :: t => (takeDigitsN 6 t).map (fun p => ((p.1 : Int), p.2))
    | '-' :: t => (takeDigitsN 6 t).map (fun p => (-(p.1 : Int), p.2))
    | _ => (takeDigitsN 4 l).map (fun p => ((p.1 : Int), p.2))
  match yearPart with
  | none => none
  | some (y, r1) =>
    let datePart : Option (Int × Int × List Char) :=
      match r1 with
      | '-' :: t =>
        match takeDigitsN 2 t with
        | none => none
        | some (m, r2) =>
          if m < 1 || m > 12 then none
          else
            match r2 with
            | '-' :: t2 =>
              match takeDigitsN 2 t2 with
              | none => none
              | some (d, r3) =>
                if d < 1 || d > 31 then none else some ((m : Int), (d : Int), r3)
            | _ => some ((m : Int), 1, r2)
      | _ => some (1, 1, r1)
    match datePart with
    | none => none
    | some (m, d, r2) =>
      let timeMs : Option (Int × List Char) :=
        match r2 with
        | [] => some (0, [])
        | _ => parseTimePart r2
      match timeMs with
      | none => none
      | some (tms, r3) =>
        match parseOffsetPart r3 with
        | none => none
        | some off =>
          timeClip (daysFromCivil y m d * 86400000 + tms - off)

/-- String-level wrapper for `parseJsDateL`. -/
def parseJsDate (s : String) : Option Int := parseJsDateL s.data

/-- Left-pad the decimal digits of `n` with zeros to the given width. -/
def padDigits (width : Nat) (n : Nat) : List Char :=
  let ds := natDecDigits n
  List.replicate (width - ds.length) '0' ++ ds

/-- Model of `Date.prototype.toISOString` on a valid time value:
`YYYY-MM-DDTHH:mm:ss.sssZ`, with the expanded `±YYYYYY` year form outside
0000–9999. -/

def toISOString (t : Int) : String :=
  let days := Int.fdiv t 86400000
  let rem := (t - days * 86400000).toNat
  let ymd := civilFromDays days
  let y := ymd.1
  let m := ymd.2.1.toNat
  let d := ymd.2.2.toNat
  let yearStr : List Char :=
    if 0 ≤ y && y ≤ 9999 then padDigits 4 y.toNat
    else (if y < 0 then '-' else '+') :: padDigits 6 y.natAbs
  String.mk (yearStr ++ '-' :: padDigits 2 m ++ '-' :: padDigits 2 d ++
    'T' :: padDigits 2 (rem / 3600000) ++ ':' :: padDigits 2 (rem % 3600000 / 60000) ++
    ':' :: padDigits 2 (rem % 60000 / 1000) ++ '.' :: padDigits 3 (rem % 1000) ++ ['Z'])

/-- Model of `new Date(v)` for a non-`Date` argument `v` (the coercions the
roster code can reach; object/array-to-primitive coercion is not modelled
and yields an Invalid Date). -/

def jsNewDate : JVal → Option Int
  | .str s => parseJsDate s
  | .num m e =>
    if 0 ≤ e then timeClip (m * (10 : Int) ^ e.toNat)
    else
      let d : Int := (10 : Int) ^ (-e).toNat
      if (m.natAbs : Int) ≤ 8640000000000000 * d then some (Int.tdiv m d) else none
  | .date t => t
  | .bool b => timeClip (if b then 1 else 0)
  | .null => timeClip 0
  | .arr _ => none
  | .obj _ => none

/-- Model of `x < y` on two `Date` objects: comparison of time values,
false whenever either is NaN. -/

def dateLt (x y : Option Int) : Bool :=
  match x, y with
  | some a, some b => a < b
  | _, _ => false

-- ── Storage: player records and the reconciler (storage.js) ───

/-- View of a player record as handled by `upsertPlayer`/`serialisePlayer`:
the `playerName` identity, the `date` field (absent = `undefined`), and the
remaining game-specific fields, which storage.js spreads through untouched. -/

structure PRec where
  playerName : String
  date : Option JVal
  rest : List (String × JVal)

/-- Model of `serialisePlayer` (storage.js lines 98–103): a `Date`-valued
`date` field becomes its ISO string; any other value is replaced by the ISO
string of the current instant; an Invalid Date makes `toISOString` throw a
`RangeError`, modelled as `none`. -/

def serialisePlayer (now : Int) (data : PRec) : Option PRec :=
  match data.date with
  | some (.date (some t)) => some ⟨data.playerName, some (.str (toISOString t)), data.rest⟩
  | some (.date none) => none
  | _ => some ⟨data.playerName, some (.str (toISOString now)), data.rest⟩

/-- Model of `Array.prototype.findIndex` together with the index accesses
around it: split the list at the first element satisfying the test. -/

def findSplit (p : α → Bool) : List α → Option (List α × α × List α)
  | [] => none
  | x :: xs =>
    if p x then some ([], x, xs)
    else (findSplit p xs).map (fun t => (x :: t.1, t.2.1, t.2.2))

/-- Model of `upsertPlayer` (storage.js lines 69–95).  Mutation is modelled
by returning the resulting array; `none` models the `RangeError` thrown by
`toISOString` on an Invalid Date. -/

def upsertPlayer (now : Int) (players : List PRec) (data : PRec) :
    Option (Bool × List PRec) :=
  match findSplit (fun p => jsToLower p.playerName == jsToLower data.playerName) players with
  | none =>
    -- New player — insert
    (serialisePlayer now data).map (fun r => (true, players ++ [r]))
  | some (before, existing, after) =>
    let existingDate : Option Int :=
      match existing.date with
      | some v => if jsTruthy v then jsNewDate v else some 0
      | none => some 0
    let incomingDate : Option Int :=
      match data.date with
      | some (.date t) => t
      | some v => jsNewDate v
      | none => none
    if dateLt incomingDate existingDate then some (false, players)
    else (serialisePlayer now data).map (fun r => (true, before ++ r :: after))

-- ── findSplit and serialisePlayer lemmas ──────────────────────

-- ── JSON text: parsing (model of JSON.parse) ──────────────────

/-- JSON insignificant whitespace (space, tab, LF, CR). -/
def jsonWs (c : Char) : Bool := c == ' ' || c == '\t' || c == '\n' || c == '\r'

/-- Skip JSON whitespace. -/
def skipWs (l : List Char) : List Char := l.dropWhile jsonWs

/-- Value of a hexadecimal digit (either case), as accepted in `\uXXXX`. -/
def hexDigitVal (c : Char) : Option Nat :=
  if '0' ≤ c && c ≤ '9' then some (c.toNat - 48)
  else if 'a' ≤ c && c ≤ 'f' then some (c.toNat - 87)
  else if 'A' ≤ c && c ≤ 'F' then some (c.toNat - 55)
  else none

/-- Resolve one escape sequence after a backslash: the escaped character
and the remaining input. -/

def unescape1 (e : Char) (r : List Char) : Option (Char × List Char) :=
  if e = '"' then some ('"', r)
  else if e = '\\' then some ('\\', r)
  else if e = '/' then some ('/', r)
  else if e = 'b' then some ('\x08', r)
  else if e = 'f' then some ('\x0c', r)
  else if e = 'n' then some ('\n', r)
  else if e = 'r' then some ('\r', r)
  else if e = 't' then some ('\t', r)
  else if e = 'u' then
    match r with
    | h1 :: h2 :: h3 :: h4 :: r2 =>
      match hexDigitVal h1, hexDigitVal h2, hexDigitVal h3, hexDigitVal h4 with
      | some d1, some d2, some d3, some d4 =>
        some (Char.ofNat (((d1 * 16 + d2) * 16 + d3) * 16 + d4), r2)
      | _, _, _, _ => none
    | _ => none
  else none

/-- Parse a JSON string body after the opening quote, unescaping as
`JSON.parse` does; raw control characters are invalid.  (Surrogate-pair
recombination is not modelled; roster text is ASCII.)  Fuel-driven —
callers supply at least the input length — so it evaluates by kernel
reduction. -/

def parseStrBody : Nat → List Char → List Char → Option (String × List Char)
  | 0, _, _ => none
  | fuel + 1, l, acc =>
    match l with
    | [] => none
    | c :: rest =>
      if c = '"' then some (String.mk acc.reverse, rest)
      else if c = '\\' then
        match rest with
        | [] => none
        | e :: r =>
          match unescape1 e r with
          | some p => parseStrBody fuel p.2 (p.1 :: acc)
          | none => none
      else if c.toNat < 0x20 then none
      else parseStrBody fuel rest (c :: acc)

/-- Parse the integer-part digits of a JSON number: `0`, or a nonzero
digit followed by more digits (leading zeros are invalid JSON). -/

def parseIntPart (l : List Char) : Option (Nat × List Char) :=
  match l with
  | [] => none
  | c :: rest =>
    if c = '0' then
      match rest with
      | c2 :: _ => if isAsciiDigit c2 then none else some (0, rest)
      | [] => some (0, [])
    else if isAsciiDigit c then
      let p := (c :: rest).span isAsciiDigit
      some (digitsToNat p.1, p.2)
    else none

/-- Strip factors of ten from the mantissa into the exponent (fuel-driven
so that it evaluates by kernel reduction). -/

def canonAux : Nat → Int → Int → Int × Int
  | 0, m, e => (m, e)
  | fuel + 1, m, e =>
    if m ≠ 0 ∧ m % 10 = 0 then canonAux fuel (Int.tdiv m 10) (e + 1) else (m, e)

/-- Canonical decimal form of `m * 10 ^ e`: zero is `(0, 0)`; otherwise the
mantissa carries no trailing zeros. -/

def canonNum (m e : Int) : Int × Int :=
  if m = 0 then (0, 0) else canonAux m.natAbs m e

/-- Parse a JSON number (grammar `-?int frac? exp?`) into its exact
canonical decimal value `m * 10 ^ e`. -/

def parseNum (l : List Char) : Option ((Int × Int) × List Char) :=
  let signed : Bool × List Char :=
    if l.head? = some '-' then (true, l.tail) else (false, l)
  match parseIntPart signed.2 with
  | none => none
  | some (ip, r1) =>
    let fracPart : Option ((Nat × Nat) × List Char) :=
      if r1.head? = some '.' then
        let p := r1.tail.span isAsciiDigit
        if p.1.isEmpty then none
        else some ((digitsToNat p.1, p.1.length), p.2)
      else some ((0, 0), r1)
    match fracPart with
    | none => none
    | some (fp, r2) =>
      let expPart : Option (Int × List Char) :=
        if r2.head? = some 'e' ∨ r2.head? = some 'E' then
          let r3 := r2.tail
          let se : Bool × List Char :=
            if r3.head? = some '+' then (false, r3.tail)
            else if r3.head? = some '-' then (true, r3.tail)
            else (false, r3)
          let p := se.2.span isAsciiDigit
          if p.1.isEmpty then none
          else some ((if se.1 then -(digitsToNat p.1 : Int) else (digitsToNat p.1 : Int)), p.2)
        else some (0, r2)
      match expPart with
      | none => none
      | some (e, r3) =>
        let mant : Int := (ip * 10 ^ fp.2 + fp.1 : Nat)
        some (canonNum (if signed.1 then -mant else mant) (e - fp.2), r3)

/-- Combine a parsed field with the fields parsed after it: a duplicate
key keeps this (earliest) position but takes the latest value, as property
definition order works in JS object literals built by `JSON.parse`. -/

def objCombine (k : String) (v : JVal) (fs : List (String × JVal)) :
    List (String × JVal) :=
  match fs.lookup k with
  | some v2 => (k, v2) :: fs.filter (fun f => f.1 != k)
  | none => (k, v) :: fs

mutual

/-- Fuel-driven recursive-descent JSON value parser (model of the JSON
grammar accepted by `JSON.parse`); returns the value and remaining input. -/
def parseVal : Nat → List Char → Option (JVal × List Char)
  | 0, _ => none
  | fuel + 1, l =>
    match skipWs l with
    | 'n' :: 'u' :: 'l' :: 'l' :: r => some (.null, r)
    | 't' :: 'r' :: 'u' :: 'e' :: r => some (.bool true, r)
    | 'f' :: 'a' :: 'l' :: 's' :: 'e' :: r => some (.bool false, r)
    | '"' :: r => (parseStrBody (r.length + 1) r []).map (fun p => (.str p.1, p.2))
    | '[' :: r =>
      match skipWs r with
      | ']' :: r2 => some (.arr [], r2)
      | _ => (parseArrRest fuel r).map (fun p => (.arr p.1, p.2))
    | '{' :: r =>
      match skipWs r with
      | '}' :: r2 => some (.obj [], r2)
      | _ => (parseObjRest fuel r).map (fun p => (.obj p.1, p.2))
    | l' => (parseNum l').map (fun p => (.num p.1.1 p.1.2, p.2))

/-- Parse `value (, value)* ]` — the non-empty tail of a JSON array. -/
def parseArrRest : Nat → List Char → Option (List JVal × List Char)
  | 0, _ => none
  | fuel + 1, l =>
    match parseVal fuel l with
    | none => none
    | some (v, r) =>
      match skipWs r with
      | ',' :: r2 =>
        (parseArrRest fuel r2).map (fun p => (v :: p.1, p.2))
      | ']' :: r2 => some ([v], r2)
      | _ => none

/-- Parse `"key": value (, "key": value)* }` — the non-empty tail of a
JSON object.  A duplicate key overwrites the earlier value in place, as
property assignment does in JS. -/
def parseObjRest : Nat → List Char → Option (List (String × JVal) × List Char)
  | 0, _ => none
  | fuel + 1, l =>
    match skipWs l with
    | '"' :: r =>
      match parseStrBody (r.length + 1) r [] with
      | none => none
      | some (k, r1) =>
        match skipWs r1 with
        | ':' :: r2 =>
          match parseVal fuel r2 with
          | none => none
          | some (v, r3) =>
            match skipWs r3 with
            | ',' :: r4 =>
              (parseObjRest fuel r4).map (fun p => (objCombine k v p.1, p.2))
            | '}' :: r4 => some ([(k, v)], r4)
            | _ => none
        | _ => none
    | _ => none

end

/-- Model of `JSON.parse`: parse one value surrounded by optional
whitespace; `none` models a thrown `SyntaxError`. -/
def parseJson (s : String) : Option JVal :=
  match parseVal (s.length + 1) s.data with
  | some (v, rest) => if skipWs rest = [] then some v else none
  | none => none

-- ── JSON text: printing (model of JSON.stringify) ─────────────

/-- Lower-case hexadecimal digit character. -/
def hexCh (n : Nat) : Char :=
  match n with
  | 0 => '0' | 1 => '1' | 2 => '2' | 3 => '3' | 4 => '4'
  | 5 => '5' | 6 => '6' | 7 => '7' | 8 => '8' | 9 => '9'
  | 10 => 'a' | 11 => 'b' | 12 => 'c' | 13 => 'd' | 14 => 'e' | _ => 'f'

/-- Escape of one character inside a JSON string literal, as produced by
`JSON.stringify`. -/

def escChar (c : Char) : List Char :=
  if c = '"' then ['\\', '"']
  else if c = '\\' then ['\\', '\\']
  else if c = '\x08' then ['\\', 'b']
  else if c = '\t' then ['\\', 't']
  else if c = '\n' then ['\\', 'n']
  else if c = '\x0c' then ['\\', 'f']
  else if c = '\r' then ['\\', 'r']
  else if c.toNat < 0x20 then
    ['\\', 'u', '0', '0', hexCh (c.toNat / 16), hexCh (c.toNat % 16)]
  else [c]

/-- JSON string literal for `s`, quotes included. -/
def escStr (s : String) : List Char :=
  '"' :: ((s.data.map escChar).flatten ++ ['"'])

/-- Decimal digits of an integer. -/
def intDecDigits (m : Int) : List Char :=
  if m < 0 then '-' :: natDecDigits m.natAbs else natDecDigits m.toNat

/-- Printed form of a JSON number in canonical form `m * 10 ^ e`.  The
roster payloads only contain plain integers (every number is produced by
`parseInt`), printed as their decimal digits; the shortest-round-trip
double printing JS applies to other magnitudes is not modelled (the
exponent fallback below is explicit about that), so round-trip theorems
carry an integrality hypothesis. -/

def numChars (m e : Int) : List Char :=
  if 0 ≤ e then intDecDigits m ++ List.replicate e.toNat '0'
  else intDecDigits m ++ 'e' :: intDecDigits e

mutual

/-- Compact (`JSON.stringify(v, null, 0)`) serialisation of a JS value.
A `Date` stringifies through its `toJSON`: the ISO string for a valid
date, `null` for an invalid one. -/
def strChars : JVal → List Char
  | .null => "null".data
  | .bool true => "true".data
  | .bool false => "false".data
  | .num m e => numChars m e
  | .str s => escStr s
  | .arr [] => ['[', ']']
  | .arr (x :: xs) => '[' :: (strChars x ++ strItemsA xs)
  | .obj [] => ['{', '}']
  | .obj (f :: fs) => '{' :: (fieldChars f ++ strItemsO fs)
  | .date (some t) => escStr (toISOString t)
  | .date none => "null".data

/-- Remaining array items, each preceded by a comma, then the closer. -/
def strItemsA : List JVal → List Char
  | [] => [']']
  | x :: xs => ',' :: (strChars x ++ strItemsA xs)

/-- Remaining object fields, each preceded by a comma, then the closer. -/
def strItemsO : List (String × JVal) → List Char
  | [] => ['}']
  | f :: fs => ',' :: (fieldChars f ++ strItemsO fs)

/-- One object field: quoted key, colon, value. -/
def fieldChars : String × JVal → List Char
  | (k, v) => escStr k ++ ':' :: strChars v

end

/-- Model of `JSON.stringify(v, null, 0)` as a `String`. -/
def jsStringify (v : JVal) : String := String.mk (strChars v)

-- ── State codec (storage.js) ──────────────────────────────────

/-- Opening marker of the hidden state block. -/
def stateOpen : String := "<!--STATE:"

/-- Closing marker of the hidden state block. -/
def stateClose : String := "-->"

/-- Model of `encodeState` (storage.js lines 21–24). -/
def encodeState (state : JVal) : String :=
  stateOpen ++ jsStringify state ++ stateClose

/-- Model of `String.prototype.indexOf`: index of the first occurrence of
`pat` in `l`, `none` for JS's `-1`. -/

def findSub : List Char → List Char → Option Nat
  | [], pat => if pat.isEmpty then some 0 else none
  | c :: cs, pat =>
    if pat.isPrefixOf (c :: cs) then some 0
    else (findSub cs pat).map (· + 1)

/-- The empty roster `{ players: [] }`. -/
def emptyState : JVal := .obj [("players", .arr [])]

/-- Assign a value to a property: overwrite in place when the key exists,
append otherwise (JS property assignment). -/

def setFieldVal (k : String) (v : JVal) (fs : List (String × JVal)) :
    List (String × JVal) :=
  if fs.any (fun f => f.1 == k) then
    fs.map (fun f => if f.1 == k then (f.1, v) else f)
  else fs ++ [(k, v)]

/-- Own enumerable properties seen by object spread `{...p}` for a
non-object value: indexed characters of a string, indexed elements of an
array, nothing for primitives and `Date`s. -/

def spreadFields : JVal → List (String × JVal)
  | .arr xs => xs.enum.map (fun p => (String.mk (natDecDigits p.1), p.2))
  | .str s => s.data.enum.map (fun p => (String.mk (natDecDigits p.1), .str (String.mk [p.2])))
  | _ => []

/-- Model of storage.js line 49–52: `{ ...p, date: p.date ? new Date(p.date)
: new Date() }`. -/

def revivePlayer (now : Int) (p : JVal) : JVal :=
  let newDate : JVal :=
    match p with
    | .obj pf =>
      match pf.lookup "date" with
      | some v => if jsTruthy v then .date (jsNewDate v) else .date (some now)
      | none => .date (some now)
    | _ => .date (some now)
  match p with
  | .obj pf => .obj (setFieldVal "date" newDate pf)
  | other => .obj (spreadFields other ++ [("date", newDate)])

/-- Model of storage.js lines 47–53: when the parsed value has an array
`players` property, replace it by the element-wise revived array;
otherwise return the parsed value unchanged. -/

def reviveState (now : Int) (parsed : JVal) : JVal :=
  match parsed with
  | .obj fields =>
    match fields.lookup "players" with
    | some (.arr ps) =>
      .obj (setFieldVal "players" (.arr (ps.map (revivePlayer now))) fields)
    | _ => parsed
  | _ => parsed

/-- Model of `decodeState` (storage.js lines 32–59): `none` models a
`null`/`undefined`/non-string argument; the `catch` around `JSON.parse`
is the `none` branch of `parseJson`. -/

def decodeState (now : Int) (messageContent : Option String) : JVal :=
  match messageContent with
  | none => emptyState
  | some s =>
    if s = "" then emptyState
    else
      match findSub s.data stateOpen.data with
      | none => emptyState
      | some start =>
        let jsonStart := start + stateOpen.length
        match findSub (s.data.drop jsonStart) stateClose.data with
        | none => emptyState
        | some rel =>
          let json := (s.data.drop jsonStart).take rel
          match parseJson (String.mk json) with
          | none => emptyState
          | some parsed => reviveState now parsed

def unitTable : List (String × Int) :=
  [("second", 1000), ("minute", 60000), ("hour", 3600000),
   ("day", 86400000), ("week", 604800000),
   ("month", 2592000000), ("year", 31536000000)]

/-- First unit word (regex alternation order) that starts the input;
returns its duration and the rest.  No unit is a prefix of another, so
first-match equals the regex's backtracking result. -/

def findUnit : List (String × Int) → List Char → Option (Int × List Char)
  | [], _ => none
  | (u, ms) :: rest, l =>
    if u.data.isPrefixOf l then some (ms, l.drop u.length)
    else findUnit rest l

/-- Deterministic match of the anchored regex
`^(\d+)\s+(second|minute|hour|day|week|month|year)s?\s+ago$` on the
(trimmed, lower-cased) input; returns the count and the unit duration.
Greedy runs are maximal-munch, which coincides with the regex because a
digit run is never followed by a digit, whitespace never by whitespace. -/

def relTail (l : List Char) : Option Int :=
  let w1 := l.span isJsWs
  if w1.1.isEmpty then none else
  match findUnit unitTable w1.2 with
  | none => none
  | some (ms, r1) =>
    let r2 := match r1 with
      | 's' :: t => t
      | _ => r1
    let w2 := r2.span isJsWs
    if w2.1.isEmpty then none else
    if w2.2 = ['a', 'g', 'o'] then some ms else none

def relMatch (l : List Char) : Option (Nat × Int) :=
  let d := l.span isAsciiDigit
  if d.1.isEmpty then none else
  match relTail d.2 with
  | some ms => some (digitsToNat d.1, ms)
  | none => none

/-- ASCII letter, the regex class `[A-Za-z]`. -/
def isAsciiAlpha (c : Char) : Bool :=
  (97 ≤ c.toNat && c.toNat ≤ 122) || (65 ≤ c.toNat && c.toNat ≤ 90)

/-- Full month names, for the engine's legacy month-name recognition. -/
def monthNames : List String :=
  ["january", "february", "march", "april", "may", "june", "july",
   "august", "september", "october", "november", "december"]

/-- Month number of a name word: at least three letters and a prefix of a
full month name, case-insensitively (the V8 legacy parser's rule). -/

def monthOfName (w : String) : Option Nat :=
  let lw := jsToLower w
  if lw.length < 3 then none
  else
    match monthNames.findIdx? (fun mn => lw.data.isPrefixOf mn.data) with
    | some i => some (i + 1)
    | none => none

/-- Deterministic match of `^([A-Za-z]+)\s+(\d{1,2})\s+(\d{4})$` followed by
the engine's legacy parse of `"<Month> <day>, <year>"` at local (modelled
UTC) midnight; day overflow past the month follows `MakeDay` arithmetic,
days outside 1–31 are invalid. -/

def natMatch (l : List Char) : Option Int :=
  let a := l.span isAsciiAlpha
  if a.1.isEmpty then none else
  let w1 := a.2.span isJsWs
  if w1.1.isEmpty then none else
  let d := w1.2.span isAsciiDigit
  if d.1.length = 0 || d.1.length > 2 then none else
  let w2 := d.2.span isJsWs
  if w2.1.isEmpty then none else
  let y := w2.2.span isAsciiDigit
  if y.1.length ≠ 4 || !y.2.isEmpty then none else
  match monthOfName (String.mk a.1) with
  | none => none
  | some m =>
    let day := digitsToNat d.1
    if day < 1 || day > 31 then none
    else some (daysFromCivil (digitsToNat y.1) m day * 86400000)

/-- Start of the (modelled-UTC) day containing `t`. -/
def startOfDay (t : Int) : Int := 86400000 * Int.fdiv t 86400000

/-- Model of `parseDate` (parser.js lines 42–96).  The argument `none`
models a null/undefined/non-string argument; the current instant is passed
explicitly.  The result is the `Date`'s time value, with `none` an Invalid
Date: the relative branch builds `new Date(d.getTime() - n * map[unit])`
with no `isNaN` check, so a time value beyond the ECMAScript ±8.64e15 ms
range (`timeClip`) is returned as an Invalid Date.  The `<Month> <day>
<year>` and standard-timestamp branches test `isNaN` before returning and
fall through otherwise; the latter is modelled by the ISO family parser
`parseJsDate` (engine-specific legacy formats beyond these fall to
"now"). -/

def parseDate (now : Int) (raw : Option String) : Option Int :=
  match raw with
  | none => some now
  | some rawStr =>
    if rawStr = "" then some now
    else
      let s := jsToLower (jsTrim rawStr)
      if s = "now" ∨ s = "just now" then some now
      else if s = "today" then some (startOfDay now)
      else if s = "yesterday" then some (startOfDay now - 86400000)
      else
        match relMatch s.data with
        | some (n, ms) => timeClip (now - n * ms)
        | none =>
          match natMatch (jsTrim rawStr).data with
          | some t => some t
          | none =>
            match parseJsDate (jsTrim rawStr) with
            | some t => some t
            | none => some now

-- ── Message grammar parsers (parser.js) ───────────────────────

/-- Character stripped by `sanitise` (parser.js line 102). -/
def isDangerous (c : Char) : Bool :=
  c == '<' || c == '>' || c == '"' || c == '\'' || c == ';' || c == '(' || c == ')'

/-- Model of `sanitise`: strip dangerous characters everywhere, then trim. -/
def sanitise (s : String) : String :=
  jsTrim (String.mk (s.data.filter (fun c => !isDangerous c)))

/-- Model of `content.replace(/^\s*TAG\s*
/i, '')` for a literal `TAG`: when the case-insensitive tag follows optional
whitespace at the start, remove the whitespace, the tag and the following
whitespace run; otherwise the content is unchanged. -/

def stripUpdateTag (tag : String) (content : String) : String :=
  let lws := content.data.dropWhile isJsWs
  if ciStarts tag.data lws then String.mk ((lws.drop tag.length).dropWhile isJsWs)
  else content

/-- The regex `.`: any character but a line terminator. -/
def dotChar (c : Char) : Bool := !isLineTerm c

/-- Match `\s+(.+)$` at `l` and return the `(.+)` capture.  Maximal-munch
with the one backtracking case written out: when everything after the
whitespace run is empty, the run lends its final (non-line-terminator)
character to the `.+`. -/

def wsThenLast (l : List Char) : Option (List Char) :=
  let w := l.span isJsWs
  if w.1.isEmpty then none
  else if w.2.isEmpty then
    match w.1.getLast? with
    | some c => if w.1.length ≥ 2 && !isLineTerm c then some [c] else none
    | none => none
  else if w.2.any isLineTerm then none
  else some w.2

/-- Match `\s+(\S+)\s+(.+)$` at `l`, returning the `\S+` capture and the
final capture.  The greedy runs are maximal-munch, which agrees with the
backtracking engine because a whitespace run is never extendable into
`\S` and vice versa. -/

def tryTail (l : List Char) : Option (List Char × List Char) :=
  let w1 := l.span isJsWs
  if w1.1.isEmpty then none else
  let ro := w1.2.span (fun c => !isJsWs c)
  if ro.1.isEmpty then none else
  match wsThenLast ro.2 with
  | none => none
  | some rest => some (ro.1, rest)

/-- Lazy expansion of `(.+?)` in `^@(.+?)\s+(\S+)\s+(.+)$`: try to complete
the match after the accumulated name, extending the name one
(non-line-terminator) character at a time, shortest first — the regex
engine's order for a lazy quantifier. -/

def splitLazy (name : List Char) : List Char → Option (List Char × List Char × List Char)
  | [] =>
    match tryTail [] with
    | some (role, rest) => some (name, role, rest)
    | none => none
  | c :: cs =>
    match tryTail (c :: cs) with
    | some (role, rest) => some (name, role, rest)
    | none => if isLineTerm c then none else splitLazy (name ++ [c]) cs

/-- Model of `body.match(/^@(.+?)\s+(\S+)\s+(.+)$/)`, returning the three
captures. -/

def matchPlayer (body : List Char) : Option (List Char × List Char × List Char) :=
  match body with
  | '@' :: c :: rest => if isLineTerm c then none else splitLazy [c] rest
  | _ => none

/-- First alternative of the rank alternation that starts the input
case-insensitively; returns the matched slice of the input (original
casing) and the rest.  First-match equals the engine's backtracking result
because no vocabulary rank is a case-insensitive prefix of another. -/

def matchAlt : List String → List Char → Option (List Char × List Char)
  | [], _ => none
  | a :: rest, l =>
    if ciStarts a.data l then some (l.take a.data.length, l.drop a.data.length)
    else matchAlt rest l

/-- Match `\s+` and return what follows. -/
def ws1 (l : List Char) : Option (List Char) :=
  let w := l.span isJsWs
  if w.1.isEmpty then none else some w.2

/-- Match `(\d+)` and return the digits and what follows. -/
def digits1 (l : List Char) : Option (List Char × List Char) :=
  let d := l.span isAsciiDigit
  if d.1.isEmpty then none else some (d.1, d.2)

/-- Match the Marvel Rivals remainder grammar
`^(alt)\s+(\d+)\s+(alt)\s+(\d+)\s+(.+)$` (parser.js lines 125–129). -/

def matchMRRest (rest : List Char) :
    Option (List Char × List Char × List Char × List Char × List Char) :=
  match matchAlt MR_RANKS.reverse rest with
  | none => none
  | some (r1, l1) =>
    match ws1 l1 with
    | none => none
    | some l2 =>
      match digits1 l2 with
      | none => none
      | some (t1, l3) =>
        match ws1 l3 with
        | none => none
        | some l4 =>
          match matchAlt MR_RANKS.reverse l4 with
          | none => none
          | some (r2, l5) =>
            match ws1 l5 with
            | none => none
            | some l6 =>
              match digits1 l6 with
              | none => none
              | some (t2, l7) =>
                match wsThenLast l7 with
                | none => none
                | some dateL => some (r1, t1, r2, t2, dateL)

/-- Match the Overwatch remainder grammar
`^(alt)\s+(\d+)\s+(\d+)\s+(alt)\s+(\d+)\s+(\d+)\s+(.+)$` (parser.js lines
172–175). -/

def matchOWRest (rest : List Char) :
    Option (List Char × List Char × List Char × List Char × List Char × List Char × List Char) :=
  match matchAlt OW_RANKS.reverse rest with
  | none => none
  | some (r1, l1) =>
    match ws1 l1 with
    | none => none
    | some l2 =>
      match digits1 l2 with
      | none => none
      | some (t1, l3) =>
        match ws1 l3 with
        | none => none
        | some l4 =>
          match digits1 l4 with
          | none => none
          | some (v1, l5) =>
            match ws1 l5 with
            | none => none
            | some l6 =>
              match matchAlt OW_RANKS.reverse l6 with
              | none => none
              | some (r2, l7) =>
                match ws1 l7 with
                | none => none
                | some l8 =>
                  match digits1 l8 with
                  | none => none
                  | some (t2, l9) =>
                    match ws1 l9 with
                    | none => none
                    | some l10 =>
                      match digits1 l10 with
                      | none => none
                      | some (v2, l11) =>
                        match wsThenLast l11 with
                        | none => none
                        | some dateL => some (r1, t1, v1, r2, t2, v2, dateL)

/-- Match the Deadlock remainder grammar
`^(alt)\s+(\d+)\s+(\d+)\s+(.+)$` (parser.js lines 229–231). -/

def matchDLRest (rest : List Char) :
    Option (List Char × List Char × List Char × List Char) :=
  match matchAlt DL_RANKS.reverse rest with
  | none => none
  | some (r1, l1) =>
    match ws1 l1 with
    | none => none
    | some l2 =>
      match digits1 l2 with
      | none => none
      | some (t1, l3) =>
        match ws1 l3 with
        | none => none
        | some l4 =>
          match digits1 l4 with
          | none => none
          | some (v1, l5) =>
            match wsThenLast l5 with
            | none => none
            | some dateL => some (r1, t1, v1, dateL)

/-- Model of `normaliseRankName` (parser.js lines 277–281): lower-cased,
trimmed lookup returning the canonical spelling or nothing. -/

def normaliseRankName (raw : String) (rankList : List String) : Option String :=
  let lower := jsTrim (jsToLower raw)
  rankList.find? (fun r => jsToLower r == lower)

/-- A structured update produced by one of the three dialect parsers; the
constructor is the `game` tag of the returned object. -/

inductive ParsedUpdate where
  | mr (playerName role rankCurrent : String) (tierCurrent : Nat)
       (rankPeak : String) (tierPeak : Nat) (date : Option Int) (dateRaw : String)
  | ow (playerName role rankCurrent : String) (tierCurrent currentValue : Nat)
       (rankPeak : String) (tierPeak peakValue : Nat) (date : Option Int) (dateRaw : String)
  | dl (playerName hero rankCurrent : String) (tierCurrent currentValue : Nat)
       (date : Option Int) (dateRaw : String)
  deriving DecidableEq

/-- Model of `parseMarvelRivals` (parser.js lines 111–154); `parseInt` on a
digit capture is its decimal value. -/

def parseMarvelRivals (now : Int) (content : String) : Option ParsedUpdate :=
  let body := jsTrim (stripUpdateTag "lb_update_mr:" content)
  match matchPlayer body.data with
  | none => none
  | some (nameL, roleL, restL) =>
    let playerName := sanitise (String.mk nameL)
    let role := sanitise (String.mk roleL)
    match matchMRRest restL with
    | none => none
    | some (r1, t1, r2, t2, dateL) =>
      match normaliseRankName (String.mk r1) MR_RANKS,
            normaliseRankName (String.mk r2) MR_RANKS with
      | some rankCurrentNorm, some rankPeakNorm =>
        let tierCurrent := digitsToNat t1
        let tierPeak := digitsToNat t2
        if tierCurrent < 1 ∨ tierCurrent > 3 then none
        else if tierPeak < 1 ∨ tierPeak > 3 then none
        else some (.mr playerName role rankCurrentNorm tierCurrent
          rankPeakNorm tierPeak
          (parseDate now (some (String.mk dateL))) (jsTrim (String.mk dateL)))
      | _, _ => none

/-- Model of `parseOverwatch` (parser.js lines 162–210): a `Top 500`
current or peak rank exempts the corresponding tier (a placement number)
from the 1–5 bound. -/

def parseOverwatch (now : Int) (content : String) : Option ParsedUpdate :=
  let body := jsTrim (stripUpdateTag "lb_update_ow:" content)
  match matchPlayer body.data with
  | none => none
  | some (nameL, roleL, restL) =>
    let playerName := sanitise (String.mk nameL)
    let role := sanitise (String.mk roleL)
    match matchOWRest restL with
    | none => none
    | some (r1, t1, v1, r2, t2, v2, dateL) =>
      match normaliseRankName (String.mk r1) OW_RANKS,
            normaliseRankName (String.mk r2) OW_RANKS with
      | some rankCurrentNorm, some rankPeakNorm =>
        let tierCurrent := digitsToNat t1
        let tierPeak := digitsToNat t2
        let currentValue := digitsToNat v1
        let peakValue := digitsToNat v2
        let isTop500Current := rankCurrentNorm = "Top 500"
        let isTop500Peak := rankPeakNorm = "Top 500"
        if ¬isTop500Current ∧ (tierCurrent < 1 ∨ tierCurrent > 5) then none
        else if ¬isTop500Peak ∧ (tierPeak < 1 ∨ tierPeak > 5) then none
        else some (.ow playerName role rankCurrentNorm tierCurrent currentValue
          rankPeakNorm tierPeak peakValue
          (parseDate now (some (String.mk dateL))) (jsTrim (String.mk dateL)))
      | _, _ => none

/-- Model of `parseDeadlock` (parser.js lines 218–255). -/
def parseDeadlock (now : Int) (content : String) : Option ParsedUpdate :=
  let body := jsTrim (stripUpdateTag "lb_update_dl:" content)
  match matchPlayer body.data with
  | none => none
  | some (nameL, heroL, restL) =>
    let playerName := sanitise (String.mk nameL)
    let hero := sanitise (String.mk heroL)
    match matchDLRest restL with
    | none => none
    | some (r1, t1, v1, dateL) =>
      match normaliseRankName (String.mk r1) DL_RANKS with
      | some rankCurrentNorm =>
        let tierCurrent := digitsToNat t1
        let currentValue := digitsToNat v1
        if tierCurrent < 1 ∨ tierCurrent > 6 then none
        else some (.dl playerName hero rankCurrentNorm tierCurrent currentValue
          (parseDate now (some (String.mk dateL))) (jsTrim (String.mk dateL)))
      | none => none

/-- Model of `parseMessage` (parser.js lines 263–272): trim, dispatch on
the case-insensitive prefix. -/

def parseMessage (now : Int) (content : String) : Option ParsedUpdate :=
  let trimmed := jsTrim content
  if ciStarts "lb_update_mr:".data trimmed.data then parseMarvelRivals now trimmed
  else if ciStarts "lb_update_ow:".data trimmed.data then parseOverwatch now trimmed
  else if ciStarts "lb_update_dl:".data trimmed.data then parseDeadlock now trimmed
  else none

-- ── Codec lemmas ──────────────────────────────────────────────

-- ── C5: the grammar parsers reject out-of-range records ───────

def updateBoundsOk : ParsedUpdate → Prop
  | .mr _ _ rc tc rp tp _ _ =>
      rc ∈ MR_RANKS ∧ rp ∈ MR_RANKS ∧ 1 ≤ tc ∧ tc ≤ 3 ∧ 1 ≤ tp ∧ tp ≤ 3
  | .ow _ _ rc tc _ rp tp _ _ _ =>
      rc ∈ OW_RANKS ∧ rp ∈ OW_RANKS ∧
      (rc ≠ "Top 500" → 1 ≤ tc ∧ tc ≤ 5) ∧ (rp ≠ "Top 500" → 1 ≤ tp ∧ tp ≤ 5)
  | .dl _ _ rc tc _ _ _ => rc ∈ DL_RANKS ∧ 1 ≤ tc ∧ tc ≤ 6

/-- C5: `parseMessage` never returns a partial or out-of-range record —
the contrapositive of "any out-of-bound tier or unknown rank rejects the
whole message": every returned update is structurally complete (it is a
full constructor of `ParsedUpdate`) with canonical in-vocabulary rank
names and tiers inside the game's bounds, the Top 500 placement number
being exempt for game B. -/

-- ── Decimal numeral lemmas ────────────────────────────────────

def nodupKeys : List (String × JVal) → Bool
  | [] => true
  | f :: fs => fs.all (fun g => g.1 != f.1) && nodupKeys fs

mutual

/-- A JS value whose compact stringification parses back to itself: no
`Date`s (stringify turns them into strings), canonical number forms, and
duplicate-free object keys. -/
def jsonNice : JVal → Bool
  | .null => true
  | .bool _ => true
  | .num m e => ((m == 0 && e == 0) || (m != 0 && m % 10 != 0)) && decide (0 ≤ e)
  | .str _ => true
  | .arr xs => jsonNiceA xs
  | .obj fs => jsonNiceO fs && nodupKeys fs
  | .date _ => false

def jsonNiceA : List JVal → Bool
  | [] => true
  | x :: xs => jsonNice x && jsonNiceA xs

def jsonNiceO : List (String × JVal) → Bool
  | [] => true
  | f :: fs => jsonNice f.2 && jsonNiceO fs

end

/-- What may legally follow a complete JSON value inside a larger
document: nothing, or a closing delimiter. -/
def jsonDelim (tail : List Char) : Prop :=
  ∀ c cs, tail = c :: cs → c = ',' ∨ c = ']' ∨ c = '}'

def witSt : JVal :=
  .obj [("players", .arr [.obj [("playerName", .str "A"),
    ("date", .str "1970-01-01T00:00:00.000Z")]])]

def cexSt : JVal :=
  .obj [("players", .arr [.obj [("playerName", .str "A"),
    ("date", .str "1970-01-01T00:00:00.000Z"), ("dateRaw", .str "a-->b")]])]

/-- Number of records under the `players` property, `0` for any other shape. -/
def playersLen : JVal → Nat
  | .obj (("players", .arr l) :: _) => l.length
  | _ => 0

lemma cmpOverwatch_top500_vs_lower (a b : OWPlayer)
    (ha : rankIndex a.rankCurrent OW_RANKS = 8)
    (hb : rankIndex b.rankCurrent OW_RANKS < 8) :
    cmpOverwatch a b < 0 := by
  simp only [cmpOverwatch, ha]
  rw [if_pos (show rankIndex b.rankCurrent OW_RANKS - 8 ≠ 0 by omega)]
  omega

lemma cmpOverwatch_top500_both (a b : OWPlayer)
    (ha : a.rankCurrent = "Top 500") (hb : b.rankCurrent = "Top 500")
    (hne : a.tierCurrent ≠ b.tierCurrent) :
    cmpOverwatch a b = a.tierCurrent - b.tierCurrent := by
  have h8 : rankIndex "Top 500" OW_RANKS = 8 := by decide
  simp only [cmpOverwatch, ha, hb, h8, beq_self_eq_true, Bool.and_self,
    if_true, sub_self]
  split_ifs with h1 h2 <;> (try simp_all) <;> omega

lemma rankIndex_OW_lt_top500 (r : String) (hr : r ∈ OW_RANKS)
    (hne : r ≠ "Top 500") : rankIndex r OW_RANKS < 8 := by
  fin_cases hr <;> first | decide | exact absurd rfl hne

/-- C7: a canonical `Top 500` record compares strictly before every record
whose current rank is any other vocabulary rank; between two `Top 500`
records, the lower placement number (stored in the tier field) compares
first, and sorting two such records puts the lower placement first. -/

theorem C7_overwatch_top500_order (a b : OWPlayer) :
    (a.rankCurrent = "Top 500" → b.rankCurrent ∈ OW_RANKS →
      b.rankCurrent ≠ "Top 500" → cmpOverwatch a b < 0) ∧
    (a.rankCurrent = "Top 500" → b.rankCurrent = "Top 500" →
      a.tierCurrent < b.tierCurrent →
      cmpOverwatch a b < 0 ∧ sortOverwatch [a, b] = [a, b] ∧
        sortOverwatch [b, a] = [a, b]) := by
  constructor
  · intro ha hb hne
    refine cmpOverwatch_top500_vs_lower a b ?_ ?_
    · rw [ha]; decide
    · exact rankIndex_OW_lt_top500 _ hb hne
  · intro ha hb hlt
    have hab : cmpOverwatch a b < 0 := by
      rw [cmpOverwatch_top500_both a b ha hb (by omega)]; omega
    have hba : 0 < cmpOverwatch b a := by
      rw [cmpOverwatch_top500_both b a hb ha (by omega)]; omega
    refine ⟨hab, ?_, ?_⟩
    · simp only [sortOverwatch, jsSortBy, List.foldl, insertCmp]
      rw [if_pos (by omega)]
    · simp only [sortOverwatch, jsSortBy, List.foldl, insertCmp]
      rw [if_neg (by omega)]

/-- Witness for C7 at concrete records: a Top 500 placement-50 record versus
a Top 500 placement-200 record, and versus a Grandmaster record. -/

theorem C7_overwatch_top500_order_witness :
    (cmpOverwatch
      ⟨"A", "DPS", "Top 500", 50, 4500, "Top 500", 40, 4600, 0⟩
      ⟨"C", "DPS", "Grandmaster", 1, 4300, "Grandmaster", 1, 4300, 0⟩ < 0) ∧
    sortOverwatch
      [⟨"B", "DPS", "Top 500", 200, 4400, "Top 500", 150, 4500, 0⟩,
       ⟨"A", "DPS", "Top 500", 50, 4500, "Top 500", 40, 4600, 0⟩] =
      [⟨"A", "DPS", "Top 500", 50, 4500, "Top 500", 40, 4600, 0⟩,
       ⟨"B", "DPS", "Top 500", 200, 4400, "Top 500", 150, 4500, 0⟩] := by
  refine ⟨(C7_overwatch_top500_order _ _).1 rfl (by decide) (by decide), ?_⟩
  exact ((C7_overwatch_top500_order
    ⟨"A", "DPS", "Top 500", 50, 4500, "Top 500", 40, 4600, 0⟩
    ⟨"B", "DPS", "Top 500", 200, 4400, "Top 500", 150, 4500, 0⟩).2
    rfl rfl (by decide)).2.2

/-- C6: the Deadlock comparator realises exactly the lexicographic chain
current rank index descending, then current tier descending (inverted),
then numeric value ascending, then event time descending; it is zero
precisely when all four keys agree. -/

theorem C6_deadlock_comparator_order (a b : DLPlayer) :
    (cmpDeadlock a b < 0 ↔
      (rankIndex b.rankCurrent DL_RANKS < rankIndex a.rankCurrent DL_RANKS ∨
        (rankIndex a.rankCurrent DL_RANKS = rankIndex b.rankCurrent DL_RANKS ∧
          (b.tierCurrent < a.tierCurrent ∨
            (a.tierCurrent = b.tierCurrent ∧
              (a.currentValue < b.currentValue ∨
                (a.currentValue = b.currentValue ∧ b.date < a.date))))))) ∧
    (cmpDeadlock a b = 0 ↔
      (rankIndex a.rankCurrent DL_RANKS = rankIndex b.rankCurrent DL_RANKS ∧
        a.tierCurrent = b.tierCurrent ∧ a.currentValue = b.currentValue ∧
        a.date = b.date)) := by
  simp only [cmpDeadlock]
  split_ifs <;> omega

lemma findSplit_eq_none {p : α → Bool} {l : List α} :
    findSplit p l = none ↔ ∀ x ∈ l, p x = false := by
  induction l with
  | nil => simp [findSplit]
  | cons x xs ih =>
    by_cases h : p x
    · simp [findSplit, h]
    · simp [findSplit, h, Option.map_eq_none', ih]

lemma findSplit_eq_some {p : α → Bool} :
    ∀ {l b a : List α} {x : α}, findSplit p l = some (b, x, a) →
    l = b ++ x :: a ∧ p x = true ∧ ∀ y ∈ b, p y = false := by
  intro l
  induction l with
  | nil => intro b a x h; simp [findSplit] at h
  | cons z zs ih =>
    intro b a x h
    simp only [findSplit] at h
    by_cases hz : p z
    · rw [if_pos hz] at h
      injection h with h2
      injection h2 with h1 h2'
      injection h2' with h3 h4
      subst h1; subst h3; subst h4
      simp [hz]
    · rw [if_neg hz] at h
      cases hfz : findSplit p zs with
      | none => rw [hfz] at h; simp at h
      | some t =>
        obtain ⟨b', x', a'⟩ := t
        rw [hfz] at h
        simp only [Option.map_some'] at h
        injection h with h2
        injection h2 with h1 h2'
        injection h2' with h3 h4
        subst h1; subst h3; subst h4
        obtain ⟨hl, hx, hb⟩ := ih hfz
        refine ⟨by simp [hl], hx, ?_⟩
        intro y hy
        rcases List.mem_cons.mp hy with rfl | hy'
        · simpa using hz
        · exact hb y hy'

lemma serialisePlayer_eq_some {now : Int} {d r : PRec}
    (h : serialisePlayer now d = some r) :
    ∃ iso, r = ⟨d.playerName, some (.str iso), d.rest⟩ := by
  unfold serialisePlayer at h
  split at h <;> simp_all <;> exact ⟨_, h.symm⟩

-- ── C3, C4, C8: the reconciler ────────────────────────────────

/-- C3: when the roster (with case-insensitively unique names, the roster
invariant) contains a record matching the update's name case-insensitively
whose stored timestamp denotes a strictly later instant than the update's
event time, `upsertPlayer` returns false and leaves the roster unchanged. -/

theorem C3_upsert_stale_rejected
    (now : Int) (players : List PRec) (u pr : PRec) (s : String) (ti te : Int)
    (hnodup : (players.map (fun p => jsToLower p.playerName)).Nodup)
    (hmem : pr ∈ players)
    (hname : jsToLower pr.playerName = jsToLower u.playerName)
    (hdate : pr.date = some (.str s))
    (hparse : parseJsDate s = some te)
    (hu : u.date = some (.date (some ti)))
    (hlt : ti < te) :
    upsertPlayer now players u = some (false, players) := by
  have hpred : (fun q : PRec => jsToLower q.playerName == jsToLower u.playerName) pr = true := by
    simp [hname]
  cases hf : findSplit (fun q : PRec => jsToLower q.playerName == jsToLower u.playerName) players with
  | none =>
    exact absurd hpred (by simp [findSplit_eq_none.mp hf pr hmem])
  | some t =>
    obtain ⟨b, x, a⟩ := t
    obtain ⟨hl, hx, _⟩ := findSplit_eq_some hf
    have hxmem : x ∈ players := by rw [hl]; simp
    have hxr : x = pr := by
      refine List.inj_on_of_nodup_map hnodup hxmem hmem ?_
      rw [hname]
      exact of_decide_eq_true hx
    subst hxr
    have hsne : s ≠ "" := by
      intro h0
      rw [h0] at hparse
      have hes : (parseJsDate "" : Option Int) = none := by decide
      rw [hes] at hparse
      exact Option.noConfusion hparse
    have hex : (match x.date with
        | some v => if jsTruthy v then jsNewDate v else some 0
        | none => some 0) = some te := by
      simp only [hdate]
      rw [if_pos (show jsTruthy (.str s) = true by simp [jsTruthy, hsne])]
      exact hparse
    have hin : (match u.date with
        | some (.date t) => t
        | some v => jsNewDate v
        | none => none) = some ti := by
      simp only [hu]
    simp only [upsertPlayer, hf, hex, hin]
    rw [if_pos (show dateLt (some ti) (some te) = true by simp [dateLt, hlt])]

/-- Witness for C3: roster with one record for `Alpha` stored at
2026-01-15T10:00:00.000Z; an update for `alpha` carrying event time 0 is
rejected and the roster is unchanged. -/

theorem C3_upsert_stale_rejected_witness :
    upsertPlayer 0
      [⟨"Alpha", some (.str "2026-01-15T10:00:00.000Z"), [("rankCurrent", .str "Master")]⟩]
      ⟨"alpha", some (.date (some 0)), [("rankCurrent", .str "Diamond")]⟩ =
    some (false,
      [⟨"Alpha", some (.str "2026-01-15T10:00:00.000Z"), [("rankCurrent", .str "Master")]⟩]) := by
  exact C3_upsert_stale_rejected 0
    [⟨"Alpha", some (.str "2026-01-15T10:00:00.000Z"), [("rankCurrent", .str "Master")]⟩]
    ⟨"alpha", some (.date (some 0)), [("rankCurrent", .str "Diamond")]⟩
    ⟨"Alpha", some (.str "2026-01-15T10:00:00.000Z"), [("rankCurrent", .str "Master")]⟩
    "2026-01-15T10:00:00.000Z" 0 1768471200000
    (by simp) (by simp) (by decide) rfl (by decide) rfl (by decide)

/-- C4: an update whose name matches no roster record case-insensitively is
inserted: `upsertPlayer` returns true, the roster grows by exactly one, and
the new record carries the update's fields with its event time serialised
as an ISO string. -/

theorem C4_upsert_new_player_inserted
    (now : Int) (players : List PRec) (u : PRec) (t : Int)
    (hnew : ∀ p ∈ players, jsToLower p.playerName ≠ jsToLower u.playerName)
    (hu : u.date = some (.date (some t))) :
    upsertPlayer now players u =
      some (true, players ++ [(⟨u.playerName, some (.str (toISOString t)), u.rest⟩ : PRec)]) ∧
    (players ++ [(⟨u.playerName, some (.str (toISOString t)), u.rest⟩ : PRec)]).length
      = players.length + 1 := by
  have hf : findSplit (fun q : PRec => jsToLower q.playerName == jsToLower u.playerName) players = none := by
    rw [findSplit_eq_none]
    intro x hx
    simpa using hnew x hx
  constructor
  · simp only [upsertPlayer, hf, serialisePlayer, hu, Option.map_some']
  · simp

/-- Witness for C4: inserting `Turbo` into an empty roster at event time 0
yields a one-record roster carrying the update's fields. -/

theorem C4_upsert_new_player_inserted_witness :
    upsertPlayer 5 []
      ⟨"Turbo", some (.date (some 0)), [("role", .str "Strategist")]⟩ =
      some (true, [⟨"Turbo", some (.str "1970-01-01T00:00:00.000Z"), [("role", .str "Strategist")]⟩]) ∧
    ([] : List PRec).length + 1 = 1 := by
  have h := C4_upsert_new_player_inserted 5 []
    ⟨"Turbo", some (.date (some 0)), [("role", .str "Strategist")]⟩ 0
    (by simp) rfl
  exact ⟨h.1.trans (by rfl), rfl⟩

/-- C8: `upsertPlayer` preserves case-insensitive uniqueness of player
names: from a roster whose lower-cased names are pairwise distinct, any
result roster again has pairwise distinct lower-cased names. -/

theorem C8_upsert_preserves_unique_names
    (now : Int) (players ps' : List PRec) (u : PRec) (b : Bool)
    (hnodup : (players.map (fun p => jsToLower p.playerName)).Nodup)
    (h : upsertPlayer now players u = some (b, ps')) :
    (ps'.map (fun p => jsToLower p.playerName)).Nodup := by
  rw [upsertPlayer] at h
  cases hf : findSplit (fun q : PRec => jsToLower q.playerName == jsToLower u.playerName) players with
  | none =>
    rw [hf] at h
    cases hs : serialisePlayer now u with
    | none => rw [hs] at h; simp at h
    | some r =>
      rw [hs] at h
      obtain ⟨iso, rfl⟩ := serialisePlayer_eq_some hs
      simp only [Option.map_some', Option.some_inj] at h
      injection h with h1 h2
      subst h1; subst h2
      rw [List.map_append]
      refine List.Nodup.append hnodup (by simp) ?_
      intro x hx hx'
      simp only [List.mem_map] at hx
      obtain ⟨p, hp, hpx⟩ := hx
      have hpf := findSplit_eq_none.mp hf p hp
      simp only [List.map_cons, List.map_nil, List.mem_singleton] at hx'
      rw [hx'] at hpx
      exact absurd hpx (by simpa using hpf)
  | some tr =>
    obtain ⟨bf, x, af⟩ := tr
    rw [hf] at h
    obtain ⟨hl, hx, _⟩ := findSplit_eq_some hf
    dsimp only [] at h
    split at h
    · injection h with h2
      injection h2 with h1 h2'
      subst h2'
      exact hnodup
    · cases hs : serialisePlayer now u with
      | none => rw [hs] at h; simp at h
      | some r =>
        rw [hs] at h
        obtain ⟨iso, rfl⟩ := serialisePlayer_eq_some hs
        simp only [Option.map_some'] at h
        injection h with h2
        injection h2 with h1 h2'
        subst h2'
        have hxu : jsToLower x.playerName = jsToLower u.playerName := of_decide_eq_true hx
        have hmap : (bf ++ (⟨u.playerName, some (.str iso), u.rest⟩ : PRec) :: af).map
              (fun p => jsToLower p.playerName)
            = players.map (fun p => jsToLower p.playerName) := by
          rw [hl]; simp [hxu]
        rw [hmap]
        exact hnodup

/-- Witness for C8: upserting `TURBO` into a roster holding `Turbo` keeps
the lower-cased names pairwise distinct. -/

theorem C8_upsert_preserves_unique_names_witness :
    (([(⟨"TURBO", some (.str "1970-01-01T00:00:00.000Z"), []⟩ : PRec)] : List PRec).map
      (fun p => jsToLower p.playerName)).Nodup :=
  C8_upsert_preserves_unique_names 0
    [⟨"Turbo", some (.str "1970-01-01T00:00:00.000Z"), []⟩]
    [⟨"TURBO", some (.str "1970-01-01T00:00:00.000Z"), []⟩]
    ⟨"TURBO", some (.date (some 0)), []⟩ true
    (by simp) (by rfl)

lemma lookup_map_overwrite (k : String) (v : JVal) :
    ∀ fs : List (String × JVal), fs.any (fun f => f.1 == k) = true →
    (fs.map (fun f => if f.1 == k then (f.1, v) else f)).lookup k = some v := by
  intro fs
  induction fs with
  | nil => intro h; simp at h
  | cons f ft ih =>
    intro hany
    rcases eq_or_ne f.1 k with hf | hf
    · rw [List.map_cons, if_pos (beq_iff_eq.mpr hf), hf, List.lookup_cons]
      simp
    · have hft : ft.any (fun g => g.1 == k) = true := by
        simp only [List.any_cons, beq_false_of_ne hf, Bool.false_or] at hany
        exact hany
      rw [List.map_cons, if_neg (by simp [beq_false_of_ne hf]), List.lookup_cons]
      rw [beq_false_of_ne (Ne.symm hf)]
      exact ih hft

lemma lookup_append_new (k : String) (v : JVal) :
    ∀ fs : List (String × JVal), fs.any (fun f => f.1 == k) = false →
    (fs ++ [(k, v)]).lookup k = some v := by
  intro fs
  induction fs with
  | nil => intro _; simp [List.lookup_cons]
  | cons f ft ih =>
    intro hany
    rw [List.any_cons, Bool.or_eq_false_iff] at hany
    have hf : f.1 ≠ k := ne_of_beq_false hany.1
    rw [List.cons_append, List.lookup_cons, beq_false_of_ne (Ne.symm hf)]
    exact ih hany.2

lemma lookup_setFieldVal (k : String) (v : JVal) (fs : List (String × JVal)) :
    (setFieldVal k v fs).lookup k = some v := by
  unfold setFieldVal
  by_cases hany : fs.any (fun f => f.1 == k)
  · rw [if_pos hany]
    exact lookup_map_overwrite k v fs hany
  · rw [if_neg hany]
    exact lookup_append_new k v fs (Bool.eq_false_iff.mpr hany)

-- ── C1: decode degrades to the empty roster on malformed input ─

/-- C1: `decodeState` is total by construction (it is a Lean function into
`JVal`), and on every malformed input — absent message, empty string, no
opening marker, no closing marker after it, or a payload `JSON.parse`
rejects — it returns the empty roster `{ players: [] }`. -/

theorem C1_decode_malformed_empty (now : Int) :
    decodeState now none = emptyState ∧
    decodeState now (some "") = emptyState ∧
    (∀ s : String, findSub s.data stateOpen.data = none →
      decodeState now (some s) = emptyState) ∧
    (∀ s : String, ∀ start : Nat,
      findSub s.data stateOpen.data = some start →
      findSub (s.data.drop (start + stateOpen.length)) stateClose.data = none →
      decodeState now (some s) = emptyState) ∧
    (∀ s : String, ∀ start rel : Nat,
      findSub s.data stateOpen.data = some start →
      findSub (s.data.drop (start + stateOpen.length)) stateClose.data = some rel →
      parseJson (String.mk ((s.data.drop (start + stateOpen.length)).take rel)) = none →
      decodeState now (some s) = emptyState) := by
  refine ⟨rfl, rfl, ?_, ?_, ?_⟩
  · intro s h1
    by_cases hs : s = ""
    · subst hs; rfl
    · simp only [decodeState]
      rw [if_neg hs]
      simp only [h1]
  · intro s start h1 h2
    by_cases hs : s = ""
    · subst hs; rfl
    · simp only [decodeState]
      rw [if_neg hs]
      simp only [h1, h2]
  · intro s start rel h1 h2 h3
    by_cases hs : s = ""
    · subst hs; rfl
    · simp only [decodeState]
      rw [if_neg hs]
      simp only [h1, h2, h3]

/-- Witness for C1: the four malformed shapes at concrete inputs — absent
message, missing marker, truncated close tag, invalid JSON payload. -/

theorem C1_decode_malformed_empty_witness :
    decodeState 0 none = emptyState ∧
    decodeState 0 (some "## Leaderboard, no state block") = emptyState ∧
    decodeState 0 (some "<!--STATE:\x7b\"players\":[") = emptyState ∧
    decodeState 0 (some "<!--STATE:\x7binvalid-->") = emptyState := by
  have h := C1_decode_malformed_empty 0
  exact ⟨h.1,
    h.2.2.1 "## Leaderboard, no state block" (by decide),
    h.2.2.2.1 "<!--STATE:\x7b\"players\":[" 0 (by decide) (by decide),
    h.2.2.2.2 "<!--STATE:\x7binvalid-->" 0 8 (by decide) (by decide) rfl⟩

-- ── C10: decoded player records carry an instant date ─────────

/-- C10: for a well-formed envelope (marker found, close tag found, payload
parsing to an object whose `players` is an array of objects whose `date`
field is absent, falsy, or convertible to a valid `Date`), `decodeState`
revives every player: the result is the parsed object with `players`
replaced element-wise, and every resulting record has a `date` field
holding a valid instant — records lacking a date get the current instant. -/

theorem C10_decoded_players_have_instant_dates
    (now : Int) (s : String) (start rel : Nat)
    (fields : List (String × JVal)) (ps : List JVal)
    (hne : s ≠ "")
    (hopen : findSub s.data stateOpen.data = some start)
    (hclose : findSub (s.data.drop (start + stateOpen.length)) stateClose.data = some rel)
    (hparse : parseJson (String.mk ((s.data.drop (start + stateOpen.length)).take rel)) =
      some (.obj fields))
    (hplayers : fields.lookup "players" = some (.arr ps))
    (hdates : ∀ p ∈ ps, ∃ pf, p = .obj pf ∧
      (match pf.lookup "date" with
       | none => True
       | some v => jsTruthy v = false ∨ ∃ t, jsNewDate v = some t)) :
    decodeState now (some s) =
      .obj (setFieldVal "players" (.arr (ps.map (revivePlayer now))) fields) ∧
    ∀ q ∈ ps.map (revivePlayer now), ∃ pf2 t, q = .obj pf2 ∧
      pf2.lookup "date" = some (.date (some t)) := by
  constructor
  · simp only [decodeState]
    rw [if_neg hne]
    simp only [hopen, hclose, hparse, reviveState, hplayers]
  · intro q hq
    rcases List.mem_map.mp hq with ⟨p, hp, rfl⟩
    obtain ⟨pf, rfl, hd⟩ := hdates p hp
    cases hdl : pf.lookup "date" with
    | none =>
      refine ⟨setFieldVal "date" (.date (some now)) pf, now, ?_,
        lookup_setFieldVal _ _ _⟩
      simp [revivePlayer, hdl]
    | some v =>
      simp only [hdl] at hd
      by_cases ht : jsTruthy v
      · rcases hd with hfalse | ⟨t, hnd⟩
        · rw [ht] at hfalse; exact absurd hfalse (by simp)
        · refine ⟨setFieldVal "date" (.date (jsNewDate v)) pf, t, ?_, ?_⟩
          · simp [revivePlayer, hdl, ht]
          · rw [hnd]
            exact lookup_setFieldVal _ _ _
      · refine ⟨setFieldVal "date" (.date (some now)) pf, now, ?_,
          lookup_setFieldVal _ _ _⟩
        simp only [revivePlayer, hdl]
        rw [if_neg ht]

/-- Witness for C10 at a concrete envelope: two records, one with a stored
ISO timestamp, one with no date field at all. -/

theorem C10_decoded_players_have_instant_dates_witness :
    decodeState 77 (some "x<!--STATE:\x7b\"players\":[\x7b\"playerName\":\"A\",\"date\":\"1970-01-01T00:00:00.000Z\"\x7d,\x7b\"playerName\":\"B\"\x7d]\x7d-->") =
      .obj [("players", .arr
        [.obj [("playerName", .str "A"), ("date", .date (some 0))],
         .obj [("playerName", .str "B"), ("date", .date (some 77))]])] := by
  have h := C10_decoded_players_have_instant_dates 77
    "x<!--STATE:\x7b\"players\":[\x7b\"playerName\":\"A\",\"date\":\"1970-01-01T00:00:00.000Z\"\x7d,\x7b\"playerName\":\"B\"\x7d]\x7d-->"
    1 85
    [("players", .arr
      [.obj [("playerName", .str "A"), ("date", .str "1970-01-01T00:00:00.000Z")],
       .obj [("playerName", .str "B")]])]
    [.obj [("playerName", .str "A"), ("date", .str "1970-01-01T00:00:00.000Z")],
     .obj [("playerName", .str "B")]]
    (by decide) (by decide) (by decide) rfl rfl
    (by
      intro p hp
      rcases List.mem_cons.mp hp with rfl | hp2
      · exact ⟨_, rfl, Or.inr ⟨0, rfl⟩⟩
      · rcases List.mem_cons.mp hp2 with rfl | hp3
        · exact ⟨_, rfl, trivial⟩
        · exact absurd hp3 (by simp))
  exact h.1.trans (by rfl)

lemma normaliseRankName_mem {raw : String} {rankList : List String} {r : String}
    (h : normaliseRankName raw rankList = some r) : r ∈ rankList := by
  unfold normaliseRankName at h
  exact List.mem_of_find?_eq_some h

lemma parseMarvelRivals_bounds (now : Int) (content : String) (r : ParsedUpdate)
    (h : parseMarvelRivals now content = some r) :
    ∃ pn ro rc tc rp tp d dr, r = .mr pn ro rc tc rp tp d dr ∧
      rc ∈ MR_RANKS ∧ rp ∈ MR_RANKS ∧ 1 ≤ tc ∧ tc ≤ 3 ∧ 1 ≤ tp ∧ tp ≤ 3 := by
  unfold parseMarvelRivals at h
  dsimp only [] at h
  repeat' split at h
  all_goals try exact Option.noConfusion h
  rename_i hnc hnp hb1 hb2
  injection h with h'
  exact ⟨_, _, _, _, _, _, _, _, h'.symm, normaliseRankName_mem hnc,
    normaliseRankName_mem hnp, by omega, by omega, by omega, by omega⟩

lemma parseOverwatch_bounds (now : Int) (content : String) (r : ParsedUpdate)
    (h : parseOverwatch now content = some r) :
    ∃ pn ro rc tc cv rp tp pv d dr, r = .ow pn ro rc tc cv rp tp pv d dr ∧
      rc ∈ OW_RANKS ∧ rp ∈ OW_RANKS ∧
      (rc ≠ "Top 500" → 1 ≤ tc ∧ tc ≤ 5) ∧ (rp ≠ "Top 500" → 1 ≤ tp ∧ tp ≤ 5) := by
  unfold parseOverwatch at h
  dsimp only [] at h
  repeat' split at h
  all_goals try exact Option.noConfusion h
  rename_i hnc hnp hb1 hb2
  injection h with h'
  refine ⟨_, _, _, _, _, _, _, _, _, _, h'.symm, normaliseRankName_mem hnc,
    normaliseRankName_mem hnp, ?_, ?_⟩
  · intro hne
    rcases not_and_or.mp hb1 with hc | hc
    · exact absurd hne (by simpa using hc)
    · omega
  · intro hne
    rcases not_and_or.mp hb2 with hc | hc
    · exact absurd hne (by simpa using hc)
    · omega

lemma parseDeadlock_bounds (now : Int) (content : String) (r : ParsedUpdate)
    (h : parseDeadlock now content = some r) :
    ∃ pn he rc tc cv d dr, r = .dl pn he rc tc cv d dr ∧
      rc ∈ DL_RANKS ∧ 1 ≤ tc ∧ tc ≤ 6 := by
  unfold parseDeadlock at h
  dsimp only [] at h
  repeat' split at h
  all_goals try exact Option.noConfusion h
  rename_i hnc hb1
  injection h with h'
  exact ⟨_, _, _, _, _, _, _, h'.symm, normaliseRankName_mem hnc, by omega, by omega⟩

/-- Per-dialect range and vocabulary constraints a returned update always
satisfies: tier bounds 1–3 (game A), 1–5 with the Top 500 placement exempt
(game B), 1–6 (game C), and canonical vocabulary rank names. -/

theorem C5_parser_rejects_out_of_range (now : Int) (content : String)
    (r : ParsedUpdate) (h : parseMessage now content = some r) :
    updateBoundsOk r := by
  unfold parseMessage at h
  dsimp only [] at h
  split_ifs at h
  · obtain ⟨pn, ro, rc, tc, rp, tp, d, dr, rfl, hm⟩ :=
      parseMarvelRivals_bounds now _ r h
    exact hm
  · obtain ⟨pn, ro, rc, tc, cv, rp, tp, pv, d, dr, rfl, hm⟩ :=
      parseOverwatch_bounds now _ r h
    exact hm
  · obtain ⟨pn, he, rc, tc, cv, d, dr, rfl, hm⟩ :=
      parseDeadlock_bounds now _ r h
    exact hm

/-- Witness for C5: a parsed Overwatch update with a Top 500 placement of
123 (exempt from the 1–5 bound) satisfies all constraints. -/

theorem C5_parser_rejects_out_of_range_witness :
    updateBoundsOk (.ow "Alpha" "Tank" "Top 500" 123 4500 "Grandmaster" 2 4300 (some 0) "now") :=
  C5_parser_rejects_out_of_range 0
    "LB_UPDATE_OW: @Alpha Tank Top 500 123 4500 Grandmaster 2 4300 now"
    (.ow "Alpha" "Tank" "Top 500" 123 4500 "Grandmaster" 2 4300 (some 0) "now") (by decide)

lemma natDecAux_acc : ∀ (fuel n : Nat) (acc : List Char),
    natDecAux fuel n acc = natDecAux fuel n [] ++ acc
  | 0, _, _ => rfl
  | fuel + 1, n, acc => by
    simp only [natDecAux]
    split_ifs with h
    · rfl
    · rw [natDecAux_acc fuel (n / 10) (digitCh (n % 10) :: acc),
        natDecAux_acc fuel (n / 10) [digitCh (n % 10)]]
      simp

lemma natDecAux_fuel (n : Nat) : ∀ f1 f2 : Nat, n < f1 → n < f2 →
    natDecAux f1 n [] = natDecAux f2 n [] := by
  induction n using Nat.strong_induction_on with
  | _ n ih =>
    intro f1 f2 h1 h2
    cases f1 with
    | zero => omega
    | succ g1 =>
      cases f2 with
      | zero => omega
      | succ g2 =>
        simp only [natDecAux]
        split_ifs with h
        · rfl
        · rw [natDecAux_acc g1 (n / 10), natDecAux_acc g2 (n / 10)]
          congr 1
          exact ih (n / 10) (by omega) g1 g2 (by omega) (by omega)

lemma natDecDigits_eq (n : Nat) : natDecDigits n =
    if n < 10 then [digitCh n] else natDecDigits (n / 10) ++ [digitCh (n % 10)] := by
  show natDecAux (n + 1) n [] = _
  rw [show natDecAux (n + 1) n [] =
    if n < 10 then [digitCh n] else natDecAux n (n / 10) [digitCh (n % 10)] from rfl]
  split_ifs with h
  · rfl
  · rw [natDecAux_acc n (n / 10)]
    congr 1
    show natDecAux n (n / 10) [] = natDecDigits (n / 10)
    unfold natDecDigits
    exact natDecAux_fuel (n / 10) n (n / 10 + 1) (by omega) (by omega)

lemma natDecDigits_ne_nil (n : Nat) : natDecDigits n ≠ [] := by
  rw [natDecDigits_eq]
  split_ifs <;> simp

lemma digitCh_isDigit (k : Nat) : isAsciiDigit (digitCh k) = true := by
  unfold digitCh
  rcases k with _|_|_|_|_|_|_|_|_|k <;> rfl

lemma digitVal_digitCh (k : Nat) (h : k < 10) : digitVal (digitCh k) = k := by
  interval_cases k <;> rfl

lemma natDecDigits_all_digits (n : Nat) :
    ∀ c ∈ natDecDigits n, isAsciiDigit c = true := by
  induction n using Nat.strong_induction_on with
  | _ n ih =>
    rw [natDecDigits_eq]
    split_ifs with h
    · intro c hc
      simp only [List.mem_singleton] at hc
      subst hc
      exact digitCh_isDigit n
    · intro c hc
      rcases List.mem_append.mp hc with h1 | h2
      · exact ih (n / 10) (by omega) c h1
      · simp only [List.mem_singleton] at h2
        subst h2
        exact digitCh_isDigit _

lemma digitsToNat_natDecDigits (n : Nat) : digitsToNat (natDecDigits n) = n := by
  induction n using Nat.strong_induction_on with
  | _ n ih =>
    rw [natDecDigits_eq]
    split_ifs with h
    · simp [digitsToNat, digitVal_digitCh n h]
    · unfold digitsToNat
      rw [List.foldl_append]
      have hrec : List.foldl (fun acc c => acc * 10 + digitVal c) 0 (natDecDigits (n / 10))
          = n / 10 := ih (n / 10) (by omega)
      rw [hrec]
      simp only [List.foldl_cons, List.foldl_nil]
      rw [digitVal_digitCh (n % 10) (by omega)]
      omega

lemma natDec_cons (n : Nat) :
    ∃ d ds, natDecDigits n = d :: ds ∧ isAsciiDigit d = true := by
  cases hd : natDecDigits n with
  | nil => exact absurd hd (natDecDigits_ne_nil n)
  | cons d ds =>
    exact ⟨d, ds, rfl, natDecDigits_all_digits n d (hd ▸ List.mem_cons_self d ds)⟩

lemma digit_not_ws (c : Char) (h : isAsciiDigit c = true) : isJsWs c = false := by
  simp only [isAsciiDigit, Bool.and_eq_true, decide_eq_true_eq] at h
  simp only [isJsWs, Bool.or_eq_false_iff, beq_eq_false_iff_ne, ne_eq,
    Bool.and_eq_false_iff, decide_eq_false_iff_not, not_le]
  omega

lemma toLowerChar_digit (c : Char) (h : isAsciiDigit c = true) : toLowerChar c = c := by
  simp only [isAsciiDigit, Bool.and_eq_true, decide_eq_true_eq] at h
  unfold toLowerChar
  rw [if_neg]
  simp only [Bool.and_eq_true, decide_eq_true_eq, not_and, not_le]
  omega

lemma takeWhile_dropWhile_append {p : Char → Bool} :
    ∀ (l : List Char) (c : Char) (rest : List Char),
    (∀ x ∈ l, p x = true) → p c = false →
    (l ++ c :: rest).takeWhile p = l ∧ (l ++ c :: rest).dropWhile p = c :: rest
  | [], c, rest, _, hc => by
    simp [List.takeWhile_cons, List.dropWhile_cons, hc]
  | a :: l', c, rest, hl, hc => by
    have ha := hl a (List.mem_cons_self a l')
    have ih := takeWhile_dropWhile_append l' c rest
      (fun x hx => hl x (List.mem_cons_of_mem a hx)) hc
    simp [List.takeWhile_cons, List.dropWhile_cons, ha, ih.1, ih.2]

lemma span_append {p : Char → Bool} (l : List Char) (c : Char) (rest : List Char)
    (hl : ∀ x ∈ l, p x = true) (hc : p c = false) :
    (l ++ c :: rest).span p = (l, c :: rest) := by
  rw [List.span_eq_take_drop]
  have h := takeWhile_dropWhile_append l c rest hl hc
  rw [h.1, h.2]

lemma jsTrimL_id (l : List Char)
    (h1 : ∀ c, l.head? = some c → isJsWs c = false)
    (h2 : ∀ c, l.reverse.head? = some c → isJsWs c = false) :
    jsTrimL l = l := by
  have hd : l.dropWhile isJsWs = l := by
    cases l with
    | nil => rfl
    | cons a as => rw [List.dropWhile_cons, if_neg (by rw [h1 a rfl]; simp)]
  have hrev : l.reverse.dropWhile isJsWs = l.reverse := by
    cases hr : l.reverse with
    | nil => rfl
    | cons b bs => rw [List.dropWhile_cons, if_neg (by rw [h2 b (by rw [hr]; rfl)]; simp)]
  unfold jsTrimL dropTrailWs
  rw [hd, hrev, List.reverse_reverse]

lemma natDec_append_ne_keyword (n : Nat) (tail : List Char) (c : Char) (cs : List Char)
    (hc : isAsciiDigit c = false) :
    String.mk (natDecDigits n ++ tail) ≠ String.mk (c :: cs) := by
  intro h
  have hdata : natDecDigits n ++ tail = c :: cs := by
    injection h
  obtain ⟨d, ds, hd, hdig⟩ := natDec_cons n
  rw [hd, List.cons_append] at hdata
  injection hdata with hdc _
  rw [hdc] at hdig
  rw [hdig] at hc
  exact Bool.noConfusion hc

lemma relMatch_natDec (n : Nat) (c : Char) (rest : List Char) (ms : Int)
    (hc : isAsciiDigit c = false)
    (ht : relTail (c :: rest) = some ms) :
    relMatch (natDecDigits n ++ c :: rest) = some (n, ms) := by
  unfold relMatch
  rw [span_append _ _ _ (natDecDigits_all_digits n) hc]
  simp only [List.isEmpty_iff]
  rw [if_neg (natDecDigits_ne_nil n), ht, digitsToNat_natDecDigits]

lemma parseDate_of_relMatch (now : Int) (l : List Char) (n : Nat) (ms : Int)
    (hne : l ≠ [])
    (htrim : jsTrimL l = l)
    (hlower : l.map toLowerChar = l)
    (h1 : String.mk l ≠ "now") (h2 : String.mk l ≠ "just now")
    (h3 : String.mk l ≠ "today") (h4 : String.mk l ≠ "yesterday")
    (hrel : relMatch l = some (n, ms)) :
    parseDate now (some (String.mk l)) = timeClip (now - n * ms) := by
  simp only [parseDate]
  rw [if_neg (show String.mk l ≠ "" by
    intro h
    exact hne (congrArg String.data h))]
  have htrim' : jsTrim (String.mk l) = String.mk l := by
    simp [jsTrim, htrim]
  have hlower' : jsToLower (String.mk l) = String.mk l := by
    simp [jsToLower, hlower]
  rw [htrim', hlower']
  rw [if_neg (not_or.mpr ⟨h1, h2⟩), if_neg h3, if_neg h4]
  have hdat : (String.mk l).data = l := rfl
  rw [hdat, hrel]

-- ── C9: parseDate totality and relative-date arithmetic ───────

/-- C9 (amended): `parseDate` is a total function (the source never
throws); absent, empty and unrecognized input yield the current instant;
and for every count `n` and unit of `unitTable` (second/minute/hour/day/
week/month/year with month = 30 days and year = 365 days, pure duration
arithmetic) both `"<n> <unit> ago"` and the plural form evaluate to
`timeClip (now - n * ms)`: the current instant minus `n` times the unit
duration whenever that time value lies within the ECMAScript ±8.64e15 ms
range — the relative branch constructs its `Date` without an `isNaN`
check, so beyond that range it returns an Invalid Date instead. -/

theorem C9_parseDate_total_and_relative (now : Int) :
    parseDate now none = some now ∧
    parseDate now (some "") = some now ∧
    parseDate now (some "certainly not a date") = some now ∧
    (∀ (n : Nat) (u : String) (ms : Int), 0 < n → (u, ms) ∈ unitTable →
      (parseDate now
        (some (String.mk (natDecDigits n ++ ' ' :: (u.data ++ [' ', 'a', 'g', 'o'])))) =
        timeClip (now - n * ms) ∧
      parseDate now
        (some (String.mk (natDecDigits n ++ ' ' :: (u.data ++ ['s', ' ', 'a', 'g', 'o'])))) =
        timeClip (now - n * ms)) ∧
      ((now - n * ms).natAbs ≤ 8640000000000000 →
        parseDate now
          (some (String.mk (natDecDigits n ++ ' ' :: (u.data ++ [' ', 'a', 'g', 'o'])))) =
          some (now - n * ms))) := by
  refine ⟨rfl, rfl, rfl, ?_⟩
  intro n u ms _ hmem
  have hgen : ∀ tail : List Char, tail ≠ [] → tail.map toLowerChar = tail →
      (∀ c, tail.reverse.head? = some c → isJsWs c = false) →
      relTail (' ' :: tail) = some ms →
      parseDate now (some (String.mk (natDecDigits n ++ ' ' :: tail))) =
        timeClip (now - n * ms) := by
    intro tail htne hlow hlast hrel
    apply parseDate_of_relMatch
    · intro h
      exact natDecDigits_ne_nil n (List.append_eq_nil.mp h).1
    · apply jsTrimL_id
      · intro c hc
        obtain ⟨d, ds, hd, hdig⟩ := natDec_cons n
        rw [hd, List.cons_append] at hc
        simp only [List.head?_cons, Option.some_inj] at hc
        rw [← hc]
        exact digit_not_ws d hdig
      · intro c hc
        rw [List.reverse_append, List.reverse_cons] at hc
        cases hr : tail.reverse with
        | nil =>
          exact absurd (List.reverse_eq_nil_iff.mp hr) htne
        | cons b bs =>
          rw [hr] at hc
          simp only [List.cons_append, List.head?_cons, Option.some_inj] at hc
          exact hc ▸ hlast b (by rw [hr]; rfl)
    · rw [List.map_append]
      congr 1
      · exact (List.map_congr_left
          (fun c hcm => toLowerChar_digit c (natDecDigits_all_digits n c hcm))).trans
          (List.map_id _)
      · rw [List.map_cons]
        rw [show toLowerChar ' ' = ' ' from rfl, hlow]
    · exact natDec_append_ne_keyword n _ 'n' _ (by decide)
    · exact natDec_append_ne_keyword n _ 'j' _ (by decide)
    · exact natDec_append_ne_keyword n _ 't' _ (by decide)
    · exact natDec_append_ne_keyword n _ 'y' _ (by decide)
    · exact relMatch_natDec n ' ' tail ms (by decide) hrel
  fin_cases hmem <;>
    exact ⟨⟨hgen _ (by decide) (by decide) (by decide) (by decide),
      hgen _ (by decide) (by decide) (by decide) (by decide)⟩,
      fun hb => (hgen _ (by decide) (by decide) (by decide) (by decide)).trans
        (by unfold timeClip; rw [if_pos hb])⟩

/-- Witness for C9: two days before a concrete instant, within the
ECMAScript time range, gives exactly that instant minus two days. -/
theorem C9_parseDate_total_and_relative_witness :
    parseDate 1700000000000 (some (String.mk (natDecDigits 2 ++ ' ' :: ("day".data ++ [' ', 'a', 'g', 'o'])))) =
      some (1700000000000 - 2 * 86400000) :=
  ((C9_parseDate_total_and_relative 1700000000000).2.2.2 2 "day" 86400000
    (by decide) (by decide)).2 (by decide)

/-- Counterexample to C9 as stated: `"300000 years ago"` is matched by the
relative branch, but `now - 300000` years is about −9.459e15 ms, beyond
the ±8.64e15 ms ECMAScript range, so the source's unchecked
`new Date(d.getTime() - n * map[unit])` returns an Invalid Date — not the
current instant minus the duration, and not an instant at all. -/

theorem C9_parseDate_overflow_counterexample :
    parseDate 1700000000000 (some "300000 years ago") = none ∧
    parseDate 1700000000000 (some "300000 years ago") ≠
      some (1700000000000 - 300000 * 31536000000) := by
  exact ⟨rfl, by decide⟩

lemma hexVal_hexCh (d : Nat) (h : d < 16) : hexDigitVal (hexCh d) = some d := by
  interval_cases d <;> rfl

lemma parseStrBody_escChar (c : Char) (fuel : Nat) (tail acc : List Char) :
    parseStrBody (fuel + 1) (escChar c ++ tail) acc = parseStrBody fuel tail (c :: acc) := by
  unfold escChar
  split_ifs with h1 h2 h3 h4 h5 h6 h7 h8
  · subst h1; rfl
  · subst h2; rfl
  · subst h3; rfl
  · subst h4; rfl
  · subst h5; rfl
  · subst h6; rfl
  · subst h7; rfl
  · have hu : unescape1 'u' ('0' :: '0' :: hexCh (c.toNat / 16) :: hexCh (c.toNat % 16) :: tail)
        = some (c, tail) := by
      show (match hexDigitVal '0', hexDigitVal '0', hexDigitVal (hexCh (c.toNat / 16)),
              hexDigitVal (hexCh (c.toNat % 16)) with
            | some d1, some d2, some d3, some d4 =>
              some (Char.ofNat (((d1 * 16 + d2) * 16 + d3) * 16 + d4), tail)
            | _, _, _, _ => none) = some (c, tail)
      rw [show hexDigitVal '0' = some 0 from rfl,
        hexVal_hexCh (c.toNat / 16) (by omega), hexVal_hexCh (c.toNat % 16) (by omega)]
      show some (Char.ofNat (((0 * 16 + 0) * 16 + c.toNat / 16) * 16 + c.toNat % 16), tail)
        = some (c, tail)
      rw [show ((0 * 16 + 0) * 16 + c.toNat / 16) * 16 + c.toNat % 16 = c.toNat by omega,
        Char.ofNat_toNat]
    show parseStrBody (fuel + 1)
      ('\\' :: 'u' :: '0' :: '0' :: hexCh (c.toNat / 16) :: hexCh (c.toNat % 16) :: tail) acc = _
    rw [show parseStrBody (fuel + 1)
        ('\\' :: 'u' :: '0' :: '0' :: hexCh (c.toNat / 16) :: hexCh (c.toNat % 16) :: tail) acc
        = (match unescape1 'u' ('0' :: '0' :: hexCh (c.toNat / 16) :: hexCh (c.toNat % 16) :: tail) with
           | some p => parseStrBody fuel p.2 (p.1 :: acc)
           | none => none) from rfl]
    rw [hu]
  · show parseStrBody (fuel + 1) (c :: tail) acc = _
    simp only [parseStrBody]
    rw [if_neg h1, if_neg h2, if_neg (by omega)]

lemma parseStrBody_escape (s : List Char) : ∀ fuel tail acc, s.length < fuel →
    parseStrBody fuel ((s.map escChar).flatten ++ ('"' :: tail)) acc =
      some (String.mk (acc.reverse ++ s), tail) := by
  induction s with
  | nil => intro fuel tail acc hf
           cases fuel with
           | zero => omega
           | succ f => simp [parseStrBody]
  | cons c cs ih =>
    intro fuel tail acc hf
    cases fuel with
    | zero => omega
    | succ f =>
      rw [List.map_cons, List.flatten_cons, List.append_assoc, parseStrBody_escChar,
        ih f tail (c :: acc) (by simpa using Nat.lt_of_succ_lt_succ hf)]
      simp

lemma digit_toNat_bounds (c : Char) (h : isAsciiDigit c = true) :
    48 ≤ c.toNat ∧ c.toNat ≤ 57 := by
  simpa [isAsciiDigit, Bool.and_eq_true, decide_eq_true_eq] using h

lemma digit_ne_of (c d : Char) (h : isAsciiDigit c = true)
    (hd : isAsciiDigit d = false) : c ≠ d := by
  intro he
  rw [he] at h
  rw [h] at hd
  exact Bool.noConfusion hd

lemma natDec_head_pos (n : Nat) (hn : 0 < n) :
    ∃ d ds, natDecDigits n = d :: ds ∧ d ≠ '0' ∧ isAsciiDigit d = true := by
  induction n using Nat.strong_induction_on with
  | _ n ih =>
    rw [natDecDigits_eq]
    split_ifs with h
    · interval_cases n <;> exact ⟨_, _, rfl, by decide, by decide⟩
    · obtain ⟨d, ds, hd, hne, hdg⟩ := ih (n / 10) (by omega) (by omega)
      exact ⟨d, ds ++ [digitCh (n % 10)], by rw [hd]; rfl, hne, hdg⟩

lemma span_all {p : Char → Bool} (l : List Char) (hl : ∀ x ∈ l, p x = true) :
    l.span p = (l, []) := by
  rw [List.span_eq_take_drop, List.takeWhile_eq_self_iff.mpr hl,
    List.dropWhile_eq_nil_iff.mpr (fun a ha => by simp [hl a ha])]

lemma digitsToNat_append_zeros (k : Nat) : ∀ l : List Char,
    digitsToNat (l ++ List.replicate k '0') = digitsToNat l * 10 ^ k := by
  induction k with
  | zero => intro l; simp [digitsToNat]
  | succ k ih =>
    intro l
    rw [show List.replicate (k + 1) '0' = '0' :: List.replicate k '0' from rfl,
      show l ++ '0' :: List.replicate k '0' = (l ++ ['0']) ++ List.replicate k '0' by simp,
      ih (l ++ ['0'])]
    show (List.foldl _ 0 (l ++ ['0'])) * 10 ^ k = _
    rw [List.foldl_append]
    show (digitsToNat l * 10 + digitVal '0') * 10 ^ k = digitsToNat l * 10 ^ (k + 1)
    rw [show digitVal '0' = 0 from rfl]
    ring

lemma head_ne_of (tail : List Char) (c0 : Char)
    (h : ∀ c cs, tail = c :: cs → c ≠ c0) : tail.head? ≠ some c0 := by
  cases tail with
  | nil => simp
  | cons c cs =>
    simp only [List.head?_cons, ne_eq, Option.some.injEq]
    exact h c cs rfl

lemma takeWhile_append_not {p : Char → Bool} (l tail : List Char)
    (hl : ∀ x ∈ l, p x = true)
    (htail : ∀ c cs, tail = c :: cs → p c = false) :
    (l ++ tail).takeWhile p = l := by
  induction l with
  | nil =>
    cases tail with
    | nil => rfl
    | cons c cs => simp [List.takeWhile_cons, htail c cs rfl]
  | cons a l ih =>
    rw [List.cons_append, List.takeWhile_cons_of_pos (hl a (List.mem_cons_self a l)),
      ih (fun x hx => hl x (List.mem_cons_of_mem a hx))]

lemma dropWhile_append_not {p : Char → Bool} (l tail : List Char)
    (hl : ∀ x ∈ l, p x = true)
    (htail : ∀ c cs, tail = c :: cs → p c = false) :
    (l ++ tail).dropWhile p = tail := by
  induction l with
  | nil =>
    cases tail with
    | nil => rfl
    | cons c cs => simp [List.dropWhile_cons, htail c cs rfl]
  | cons a l ih =>
    rw [List.cons_append, List.dropWhile_cons_of_pos (hl a (List.mem_cons_self a l)),
      ih (fun x hx => hl x (List.mem_cons_of_mem a hx))]

lemma span_append_not {p : Char → Bool} (l tail : List Char)
    (hl : ∀ x ∈ l, p x = true)
    (htail : ∀ c cs, tail = c :: cs → p c = false) :
    (l ++ tail).span p = (l, tail) := by
  rw [List.span_eq_take_drop, takeWhile_append_not l tail hl htail,
    dropWhile_append_not l tail hl htail]

lemma parseIntPart_complete (n k : Nat) (tail : List Char)
    (hnk : 0 < n ∨ k = 0)
    (htail : ∀ c cs, tail = c :: cs → isAsciiDigit c = false) :
    parseIntPart (natDecDigits n ++ (List.replicate k '0' ++ tail)) =
      some (n * 10 ^ k, tail) := by
  rcases Nat.eq_zero_or_pos n with rfl | hn
  · have hk : k = 0 := by omega
    subst hk
    rw [show natDecDigits 0 ++ (List.replicate 0 '0' ++ tail) = '0' :: tail from rfl]
    cases tail with
    | nil => rfl
    | cons c cs =>
      show (if isAsciiDigit c then none else some (0, c :: cs) : Option (Nat × List Char)) =
        some (0 * 10 ^ 0, c :: cs)
      rw [htail c cs rfl]
      simp
  · obtain ⟨d, ds, hd, hne, hdg⟩ := natDec_head_pos n hn
    have hall : ∀ x ∈ natDecDigits n ++ List.replicate k '0', isAsciiDigit x = true := by
      intro x hx
      rcases List.mem_append.mp hx with h1 | h2
      · exact natDecDigits_all_digits n x h1
      · rw [List.eq_of_mem_replicate h2]; rfl
    have hspan : ((natDecDigits n ++ List.replicate k '0') ++ tail).span isAsciiDigit =
        (natDecDigits n ++ List.replicate k '0', tail) :=
      span_append_not _ tail hall htail
    rw [show natDecDigits n ++ (List.replicate k '0' ++ tail) =
      (natDecDigits n ++ List.replicate k '0') ++ tail by simp] at *
    rw [hd] at hspan ⊢
    rw [List.cons_append, List.cons_append]
    simp only [parseIntPart]
    rw [if_neg hne, if_pos hdg]
    rw [show ((d :: ds ++ List.replicate k '0') ++ tail : List Char) =
      d :: ((ds ++ List.replicate k '0') ++ tail) by simp] at hspan
    rw [hspan]
    rw [show (d :: ds ++ List.replicate k '0' : List Char) =
      d :: ds ++ List.replicate k '0' from rfl]
    rw [← hd, digitsToNat_append_zeros k (natDecDigits n), digitsToNat_natDecDigits n]

lemma canonAux_mul_ten (m : Int) (hm : m ≠ 0) (hnd : ¬ (10 : Int) ∣ m) :
    ∀ (k : Nat) (fuel : Nat) (e : Int), k ≤ fuel →
      canonAux fuel (m * 10 ^ k) e = (m, e + k) := by
  intro k
  induction k with
  | zero =>
    intro fuel e hk
    cases fuel with
    | zero => simp [canonAux]
    | succ f =>
      simp only [pow_zero, mul_one, canonAux]
      rw [if_neg]
      · simp
      · rintro ⟨h1, h2⟩
        exact hnd (Int.dvd_of_emod_eq_zero h2)
  | succ k ih =>
    intro fuel e hk
    cases fuel with
    | zero => omega
    | succ f =>
      simp only [canonAux]
      rw [if_pos ⟨mul_ne_zero hm (pow_ne_zero (k + 1) (by norm_num)), by
        rw [show m * 10 ^ (k + 1) = (m * 10 ^ k) * 10 by ring, Int.mul_emod_left]⟩]
      rw [show m * 10 ^ (k + 1) = (m * 10 ^ k) * 10 by ring,
        Int.mul_tdiv_cancel _ (by norm_num), ih f (e + 1) (by omega)]
      congr 1
      push_cast
      ring

lemma canonNum_mul_pow (m : Int) (k : Nat) (hm : m ≠ 0) (hnd : ¬ (10 : Int) ∣ m) :
    canonNum (m * 10 ^ k) 0 = (m, (k : Int)) := by
  have hk : k ≤ (m * 10 ^ k).natAbs := by
    rw [Int.natAbs_mul, Int.natAbs_pow]
    have h1 : 1 ≤ m.natAbs := by
      rcases Nat.eq_zero_or_pos m.natAbs with h | h
      · exact absurd (Int.natAbs_eq_zero.mp h) hm
      · exact h
    calc k ≤ 10 ^ k := le_of_lt (Nat.lt_pow_self (by norm_num) k)
    _ = 1 * (10 : Int).natAbs ^ k := by norm_num
    _ ≤ m.natAbs * (10 : Int).natAbs ^ k := Nat.mul_le_mul_right _ h1
  unfold canonNum
  rw [if_neg (mul_ne_zero hm (pow_ne_zero k (by norm_num))),
    canonAux_mul_ten m hm hnd k _ 0 hk]
  simp

lemma parseNum_complete (m e : Int) (tail : List Char)
    (hm0 : m = 0 → e = 0) (hmd : m ≠ 0 → ¬ (10 : Int) ∣ m) (he : 0 ≤ e)
    (htail : ∀ c cs, tail = c :: cs →
      isAsciiDigit c = false ∧ c ≠ '.' ∧ c ≠ 'e' ∧ c ≠ 'E') :
    parseNum (numChars m e ++ tail) = some ((m, e), tail) := by
  have hdot : tail.head? ≠ some '.' :=
    head_ne_of tail '.' (fun c cs hc => (htail c cs hc).2.1)
  have hexp : ¬ (tail.head? = some 'e' ∨ tail.head? = some 'E') :=
    not_or.mpr ⟨head_ne_of tail 'e' (fun c cs hc => (htail c cs hc).2.2.1),
      head_ne_of tail 'E' (fun c cs hc => (htail c cs hc).2.2.2)⟩
  have hdig : ∀ c cs, tail = c :: cs → isAsciiDigit c = false :=
    fun c cs hc => (htail c cs hc).1
  rcases eq_or_ne m 0 with rfl | hm
  · rw [hm0 rfl,
      show numChars 0 0 ++ tail = natDecDigits 0 ++ (List.replicate 0 '0' ++ tail) from rfl]
    simp only [parseNum]
    rw [if_neg (show ¬ ((natDecDigits 0 ++ (List.replicate 0 '0' ++ tail)).head? = some '-') by
      rw [show natDecDigits 0 ++ (List.replicate 0 '0' ++ tail) = '0' :: tail from rfl]
      simp)]
    dsimp only []
    rw [parseIntPart_complete 0 0 tail (Or.inr rfl) hdig]
    dsimp only []
    rw [if_neg hdot]
    dsimp only []
    rw [if_neg hexp]
    dsimp only []
    simp [canonNum]
  · have hnd := hmd hm
    rcases lt_or_gt_of_ne hm with hneg | hpos
    · rw [show numChars m e ++ tail =
        '-' :: (natDecDigits m.natAbs ++ (List.replicate e.toNat '0' ++ tail)) by
          rw [numChars, if_pos he, intDecDigits, if_pos hneg]
          simp [List.append_assoc]]
      simp only [parseNum]
      rw [if_pos (show (('-' : Char) ::
        (natDecDigits m.natAbs ++ (List.replicate e.toNat '0' ++ tail))).head? = some '-'
        from rfl)]
      simp only [List.tail_cons]
      rw [parseIntPart_complete m.natAbs e.toNat tail
        (Or.inl (Int.natAbs_pos.mpr hm)) hdig]
      dsimp only []
      rw [if_neg hdot]
      dsimp only []
      rw [if_neg hexp]
      dsimp only []
      have hcast : -((m.natAbs * 10 ^ e.toNat * 10 ^ 0 + 0 : ℕ) : ℤ) = m * 10 ^ e.toNat := by
        push_cast
        rw [abs_of_neg hneg]
        ring
      simp only [if_true, Nat.cast_zero, sub_zero]
      rw [hcast, canonNum_mul_pow m e.toNat hm hnd, Int.toNat_of_nonneg he]
    · obtain ⟨d, ds, hd, hne0, hdg2⟩ := natDec_head_pos m.toNat (by omega)
      rw [show numChars m e ++ tail =
        natDecDigits m.toNat ++ (List.replicate e.toNat '0' ++ tail) by
          rw [numChars, if_pos he, intDecDigits, if_neg (by omega : ¬ m < 0)]
          simp [List.append_assoc]]
      simp only [parseNum]
      rw [if_neg (show ¬ ((natDecDigits m.toNat ++
          (List.replicate e.toNat '0' ++ tail)).head? = some '-') by
        rw [hd]
        simp only [List.cons_append, List.head?_cons, Option.some.injEq]
        exact digit_ne_of d '-' hdg2 (by decide))]
      dsimp only []
      rw [parseIntPart_complete m.toNat e.toNat tail (Or.inl (by omega)) hdig]
      dsimp only []
      rw [if_neg hdot]
      dsimp only []
      rw [if_neg hexp]
      dsimp only []
      have hcast : ((m.toNat * 10 ^ e.toNat * 10 ^ 0 + 0 : ℕ) : ℤ) = m * 10 ^ e.toNat := by
        rw [show (m.toNat * 10 ^ e.toNat * 10 ^ 0 + 0 : ℕ) = m.toNat * 10 ^ e.toNat by ring]
        push_cast
        rw [Int.toNat_of_nonneg (le_of_lt hpos)]
      simp only [Bool.false_eq_true, if_false, Nat.cast_zero, sub_zero]
      rw [hcast, canonNum_mul_pow m e.toNat hm hnd, Int.toNat_of_nonneg he]

lemma jsonNice_num (m e : Int) (h : jsonNice (.num m e) = true) :
    (m = 0 → e = 0) ∧ (m ≠ 0 → ¬ (10 : Int) ∣ m) ∧ 0 ≤ e := by
  simp only [jsonNice, Bool.and_eq_true, Bool.or_eq_true, bne_iff_ne, beq_iff_eq,
    decide_eq_true_eq] at h
  refine ⟨fun hm => ?_, fun hm => ?_, h.2⟩
  · rcases h.1 with ⟨_, he⟩ | ⟨hne, _⟩
    · exact he
    · exact absurd hm hne
  · rcases h.1 with ⟨h0, _⟩ | ⟨_, hnd⟩
    · exact absurd h0 hm
    · intro hdvd
      exact hnd (Int.emod_eq_zero_of_dvd hdvd)

lemma jsonDelim_facts (tail : List Char) (hd : jsonDelim tail) :
    ∀ c cs, tail = c :: cs →
      isAsciiDigit c = false ∧ c ≠ '.' ∧ c ≠ 'e' ∧ c ≠ 'E' := by
  intro c cs hc
  rcases hd c cs hc with rfl | rfl | rfl <;> exact ⟨by decide, by decide, by decide, by decide⟩

lemma skipWs_cons (c : Char) (l : List Char) (h : jsonWs c = false) :
    skipWs (c :: l) = c :: l := by
  simp [skipWs, List.dropWhile_cons, h]

lemma escChar_length_pos (c : Char) : 1 ≤ (escChar c).length := by
  unfold escChar
  split_ifs <;> simp

lemma length_le_flatten_escChar (s : List Char) :
    s.length ≤ ((s.map escChar).flatten).length := by
  induction s with
  | nil => simp
  | cons c cs ih =>
    simp only [List.map_cons, List.flatten_cons, List.length_append, List.length_cons]
    have := escChar_length_pos c
    omega

lemma intDec_head (m : Int) :
    ∃ c cs, intDecDigits m = c :: cs ∧ (c = '-' ∨ isAsciiDigit c = true) := by
  unfold intDecDigits
  split_ifs with h
  · exact ⟨'-', _, rfl, Or.inl rfl⟩
  · rcases Nat.eq_zero_or_pos m.toNat with h0 | hpos
    · exact ⟨'0', [], by rw [h0]; rfl, Or.inr (by decide)⟩
    · obtain ⟨d, ds, hd, _, hdg⟩ := natDec_head_pos _ hpos
      exact ⟨d, ds, hd, Or.inr hdg⟩

lemma numChars_head (m e : Int) :
    ∃ c cs, numChars m e = c :: cs ∧ (c = '-' ∨ isAsciiDigit c = true) := by
  obtain ⟨c, cs, hc, hf⟩ := intDec_head m
  unfold numChars
  split_ifs <;> rw [hc]
  · exact ⟨c, cs ++ List.replicate e.toNat '0', rfl, hf⟩
  · exact ⟨c, cs ++ 'e' :: intDecDigits e, rfl, hf⟩

lemma numHead_facts (c : Char) (h : c = '-' ∨ isAsciiDigit c = true) :
    jsonWs c = false ∧ c ≠ 'n' ∧ c ≠ 't' ∧ c ≠ 'f' ∧ c ≠ '"' ∧ c ≠ '[' ∧ c ≠ '{' ∧
      c ≠ ']' ∧ c ≠ '}' ∧ c ≠ ',' := by
  rcases h with rfl | h
  · exact ⟨rfl, by decide, by decide, by decide, by decide, by decide, by decide,
      by decide, by decide, by decide⟩
  · refine ⟨?_, digit_ne_of c 'n' h (by decide), digit_ne_of c 't' h (by decide),
      digit_ne_of c 'f' h (by decide), digit_ne_of c '"' h (by decide),
      digit_ne_of c '[' h (by decide), digit_ne_of c '{' h (by decide),
      digit_ne_of c ']' h (by decide), digit_ne_of c '}' h (by decide),
      digit_ne_of c ',' h (by decide)⟩
    unfold jsonWs
    rw [beq_false_of_ne (digit_ne_of c ' ' h (by decide)),
      beq_false_of_ne (digit_ne_of c '\t' h (by decide)),
      beq_false_of_ne (digit_ne_of c '\n' h (by decide)),
      beq_false_of_ne (digit_ne_of c '\r' h (by decide))]
    rfl

lemma parseVal_num (N : Nat) (m e : Int) (tail : List Char) :
    parseVal (N + 1) (numChars m e ++ tail) =
      (parseNum (numChars m e ++ tail)).map (fun p => (JVal.num p.1.1 p.1.2, p.2)) := by
  obtain ⟨c, cs, hc, hf⟩ := numChars_head m e
  obtain ⟨hws, hn, ht, hf2, hq, hbr, hbc, _, _, _⟩ := numHead_facts c hf
  rw [hc, List.cons_append]
  simp only [parseVal]
  rw [skipWs_cons c _ hws]
  split <;>
    first
      | rfl
      | (rename_i h
         injection h with h1 h2
         first
           | exact absurd h1 hn
           | exact absurd h1 ht
           | exact absurd h1 hf2
           | exact absurd h1 hq
           | exact absurd h1 hbr
           | exact absurd h1 hbc)

lemma strChars_head (v : JVal) :
    ∃ c cs, strChars v = c :: cs ∧ jsonWs c = false ∧ c ≠ ']' ∧ c ≠ '}' ∧ c ≠ ',' := by
  match v with
  | .null => exact ⟨'n', _, rfl, by decide, by decide, by decide, by decide⟩
  | .bool true => exact ⟨'t', _, rfl, by decide, by decide, by decide, by decide⟩
  | .bool false => exact ⟨'f', _, rfl, by decide, by decide, by decide, by decide⟩
  | .num m e =>
    obtain ⟨c, cs, hc, hf⟩ := numChars_head m e
    obtain ⟨hws, _, _, _, _, _, _, h1, h2, h3⟩ := numHead_facts c hf
    exact ⟨c, cs, by simp only [strChars]; exact hc, hws, h1, h2, h3⟩
  | .str s => exact ⟨'"', _, rfl, by decide, by decide, by decide, by decide⟩
  | .arr [] => exact ⟨'[', _, rfl, by decide, by decide, by decide, by decide⟩
  | .arr (x :: xs) => exact ⟨'[', _, rfl, by decide, by decide, by decide, by decide⟩
  | .obj [] => exact ⟨'{', _, rfl, by decide, by decide, by decide, by decide⟩
  | .obj (f :: fs) => exact ⟨'{', _, rfl, by decide, by decide, by decide, by decide⟩
  | .date (some t) => exact ⟨'"', _, rfl, by decide, by decide, by decide, by decide⟩
  | .date none => exact ⟨'n', _, rfl, by decide, by decide, by decide, by decide⟩

lemma strChars_length_pos (v : JVal) : 1 ≤ (strChars v).length := by
  obtain ⟨c, cs, hc, _⟩ := strChars_head v
  rw [hc]
  simp

lemma strItemsA_length_pos (xs : List JVal) : 1 ≤ (strItemsA xs).length := by
  cases xs <;> simp [strItemsA]

lemma strItemsO_length_pos (fs : List (String × JVal)) : 1 ≤ (strItemsO fs).length := by
  cases fs <;> simp [strItemsO]

lemma lookup_eq_none_of_all (fs : List (String × JVal)) (k : String)
    (h : fs.all (fun g => g.1 != k) = true) : fs.lookup k = none := by
  induction fs with
  | nil => rfl
  | cons f fs ih =>
    simp only [List.all_cons, Bool.and_eq_true, bne_iff_ne] at h
    rw [List.lookup_cons]
    rw [beq_false_of_ne (Ne.symm h.1)]
    exact ih (by simpa using h.2)

lemma parseVal_str (N : Nat) (r : List Char) :
    parseVal (N + 1) ('"' :: r) =
      (parseStrBody (r.length + 1) r []).map (fun p => (JVal.str p.1, p.2)) := by
  simp only [parseVal]
  rw [skipWs_cons '"' r (by decide)]
  split <;>
    first
      | rfl
      | (rename_i h
         injection h with h1 h2
         first
           | exact absurd h1 (by decide)
           | rw [h2])
      | (rename_i a hnull htrue hfalse hstr harr hobj
         exact (hstr r rfl).elim)

lemma parseVal_arr (N : Nat) (r : List Char) (c : Char) (cs : List Char)
    (hr : r = c :: cs) (hws : jsonWs c = false) (hne : c ≠ ']') :
    parseVal (N + 1) ('[' :: r) =
      (parseArrRest N r).map (fun p => (JVal.arr p.1, p.2)) := by
  simp only [parseVal]
  rw [skipWs_cons '[' r (by decide)]
  split <;>
    first
      | (rename_i h
         injection h with h1 h2
         first
           | exact absurd h1 (by decide)
           | (rw [← h2]
              subst hr
              rw [skipWs_cons c cs hws]
              split
              · rename_i h3
                injection h3 with h4 h5
                exact absurd h4 hne
              · rfl))
      | (rename_i a hnull htrue hfalse hstr harr hobj
         exact (harr r rfl).elim)

lemma parseVal_obj (N : Nat) (r : List Char) (c : Char) (cs : List Char)
    (hr : r = c :: cs) (hws : jsonWs c = false) (hne : c ≠ '}') :
    parseVal (N + 1) ('{' :: r) =
      (parseObjRest N r).map (fun p => (JVal.obj p.1, p.2)) := by
  simp only [parseVal]
  rw [skipWs_cons '{' r (by decide)]
  split <;>
    first
      | (rename_i h
         injection h with h1 h2
         first
           | exact absurd h1 (by decide)
           | (rw [← h2]
              subst hr
              rw [skipWs_cons c cs hws]
              split
              · rename_i h3
                injection h3 with h4 h5
                exact absurd h4 hne
              · rfl))
      | (rename_i a hnull htrue hfalse hstr harr hobj
         exact (hobj r rfl).elim)

lemma jsonDelim_strItemsA (xs : List JVal) (tail : List Char) :
    jsonDelim (strItemsA xs ++ tail) := by
  cases xs <;> intro c cs h <;> simp only [strItemsA, List.cons_append] at h
  · injection h with h1 h2
    exact Or.inr (Or.inl h1.symm)
  · injection h with h1 h2
    exact Or.inl h1.symm

lemma jsonDelim_strItemsO (fs : List (String × JVal)) (tail : List Char) :
    jsonDelim (strItemsO fs ++ tail) := by
  cases fs <;> intro c cs h <;> simp only [strItemsO, List.cons_append] at h
  · injection h with h1 h2
    exact Or.inr (Or.inr h1.symm)
  · injection h with h1 h2
    exact Or.inl h1.symm

theorem parse_completeAll : ∀ N : Nat,
    (∀ v tail, jsonNice v = true → (strChars v).length ≤ N + 1 → jsonDelim tail →
      parseVal (N + 1) (strChars v ++ tail) = some (v, tail)) ∧
    (∀ x xs tail, jsonNiceA (x :: xs) = true →
      (strChars x).length + (strItemsA xs).length ≤ N + 1 → jsonDelim tail →
      parseArrRest (N + 1) (strChars x ++ (strItemsA xs ++ tail)) = some (x :: xs, tail)) ∧
    (∀ f fs tail, jsonNiceO (f :: fs) = true → nodupKeys (f :: fs) = true →
      (fieldChars f).length + (strItemsO fs).length ≤ N + 1 → jsonDelim tail →
      parseObjRest (N + 1) (fieldChars f ++ (strItemsO fs ++ tail)) = some (f :: fs, tail)) := by
  intro N
  induction N using Nat.strong_induction_on with
  | _ N ih =>
    refine ⟨?_, ?_, ?_⟩
    · intro v tail hnice hlen hdelim
      match v with
      | .null => exact rfl
      | .bool true => exact rfl
      | .bool false => exact rfl
      | .date d => exact absurd hnice (by simp [jsonNice])
      | .num m e =>
        obtain ⟨h1, h2, h3⟩ := jsonNice_num m e hnice
        rw [show strChars (.num m e) = numChars m e from rfl, parseVal_num N m e tail,
          parseNum_complete m e tail h1 h2 h3 (jsonDelim_facts tail hdelim)]
        rfl
      | .str s =>
        rw [show strChars (.str s) ++ tail =
          '"' :: ((s.data.map escChar).flatten ++ ('"' :: tail)) by
            simp [strChars, escStr]]
        rw [parseVal_str]
        rw [parseStrBody_escape s.data _ tail [] (by
          have := length_le_flatten_escChar s.data
          simp only [List.length_append, List.length_cons]
          omega)]
        rfl
      | .arr [] => exact rfl
      | .arr (x :: xs) =>
        obtain ⟨c, cs, hc, hws, hne, _, _⟩ := strChars_head x
        have hlx := strChars_length_pos x
        have hla := strItemsA_length_pos xs
        simp only [strChars, List.length_cons, List.length_append] at hlen
        obtain ⟨M, rfl⟩ : ∃ M, N = M + 1 := ⟨N - 1, by omega⟩
        rw [show strChars (.arr (x :: xs)) ++ tail =
          '[' :: (strChars x ++ (strItemsA xs ++ tail)) by simp [strChars]]
        rw [parseVal_arr (M + 1) _ c (cs ++ (strItemsA xs ++ tail))
          (by rw [hc, List.cons_append]) hws hne]
        rw [(ih M (by omega)).2.1 x xs tail (by simpa [jsonNice] using hnice)
          (by omega) hdelim]
        rfl
      | .obj [] => exact rfl
      | .obj (f :: fs) =>
        obtain ⟨k, v⟩ := f
        simp only [jsonNice, Bool.and_eq_true] at hnice
        have hlv := strChars_length_pos v
        have hlo := strItemsO_length_pos fs
        have hes : 2 ≤ (escStr k).length := by simp [escStr]
        have hfc : (fieldChars (k, v)).length =
            (escStr k).length + 1 + (strChars v).length := by
          simp [fieldChars]
          omega
        simp only [strChars, List.length_cons, List.length_append] at hlen
        obtain ⟨M, rfl⟩ : ∃ M, N = M + 1 := ⟨N - 1, by omega⟩
        rw [show strChars (.obj ((k, v) :: fs)) ++ tail =
          '{' :: (fieldChars (k, v) ++ (strItemsO fs ++ tail)) by simp [strChars]]
        rw [parseVal_obj (M + 1) _ '"'
          ((k.data.map escChar).flatten ++
            ('"' :: (':' :: (strChars v ++ (strItemsO fs ++ tail)))))
          (by simp [fieldChars, escStr]) (by decide) (by decide)]
        rw [(ih M (by omega)).2.2 (k, v) fs tail hnice.1 hnice.2 (by omega) hdelim]
        rfl
    · intro x xs tail hnice hlen hdelim
      simp only [jsonNiceA, Bool.and_eq_true] at hnice
      have hlx := strChars_length_pos x
      have hla := strItemsA_length_pos xs
      obtain ⟨M, rfl⟩ : ∃ M, N = M + 1 := ⟨N - 1, by omega⟩
      simp only [parseArrRest]
      rw [(ih M (by omega)).1 x (strItemsA xs ++ tail) hnice.1 (by omega)
        (jsonDelim_strItemsA xs tail)]
      cases xs with
      | nil => rfl
      | cons y ys =>
        rw [show strItemsA (y :: ys) ++ tail = ',' :: (strChars y ++ (strItemsA ys ++ tail)) by
          simp [strItemsA]]
        show (parseArrRest (M + 1) (strChars y ++ (strItemsA ys ++ tail))).map
          (fun p => (x :: p.1, p.2)) = some (x :: y :: ys, tail)
        rw [(ih M (by omega)).2.1 y ys tail hnice.2 (by
          simp only [strItemsA, List.length_cons, List.length_append] at hlen ⊢
          omega) hdelim]
        rfl
    · intro f fs tail hnice hnodup hlen hdelim
      obtain ⟨k, v⟩ := f
      simp only [jsonNiceO, Bool.and_eq_true] at hnice
      simp only [nodupKeys, Bool.and_eq_true] at hnodup
      have hlv := strChars_length_pos v
      have hlo := strItemsO_length_pos fs
      have hes : 2 ≤ (escStr k).length := by simp [escStr]
      have hfc : (fieldChars (k, v)).length =
          (escStr k).length + 1 + (strChars v).length := by
        simp [fieldChars]
        omega
      rw [show fieldChars (k, v) ++ (strItemsO fs ++ tail) =
        '"' :: ((k.data.map escChar).flatten ++
          ('"' :: (':' :: (strChars v ++ (strItemsO fs ++ tail))))) by
          simp [fieldChars, escStr]]
      simp only [parseObjRest]
      rw [skipWs_cons '"' _ (by decide)]
      obtain ⟨M, rfl⟩ : ∃ M, N = M + 1 := ⟨N - 1, by omega⟩
      split
      · rename_i r hsp
        injection hsp with h1 h2
        subst h2
        rw [parseStrBody_escape k.data _
          (':' :: (strChars v ++ (strItemsO fs ++ tail))) [] (by
            have := length_le_flatten_escChar k.data
            simp only [List.length_append, List.length_cons]
            omega)]
        dsimp only []
        rw [skipWs_cons ':' _ (by decide)]
        split
        · rename_i r2 hsp2
          injection hsp2 with h3 h4
          subst h4
          rw [(ih M (by omega)).1 v (strItemsO fs ++ tail) hnice.1 (by omega)
            (jsonDelim_strItemsO fs tail)]
          dsimp only []
          cases fs with
          | nil =>
            rw [show strItemsO [] ++ tail = '}' :: tail from rfl,
              skipWs_cons '}' _ (by decide)]
            split
            · rename_i r4 hsp3
              exact absurd hsp3 (by simp)
            · rename_i r4 hsp3
              injection hsp3 with h5 h6
              subst h6
              rfl
            · rename_i hsp3 hsp4
              exact (hsp4 tail rfl).elim
          | cons g gs =>
            rw [show strItemsO (g :: gs) ++ tail =
              ',' :: (fieldChars g ++ (strItemsO gs ++ tail)) by simp [strItemsO]]
            rw [skipWs_cons ',' _ (by decide)]
            split
            · rename_i r4 hsp3
              injection hsp3 with h5 h6
              subst h6
              rw [(ih M (by omega)).2.2 g gs tail hnice.2 hnodup.2 (by
                simp only [strItemsO, List.length_cons, List.length_append] at hlen ⊢
                omega) hdelim]
              show some (objCombine k v (g :: gs), tail) = some ((k, v) :: g :: gs, tail)
              unfold objCombine
              rw [lookup_eq_none_of_all (g :: gs) k hnodup.1]
            · rename_i r4 hsp3
              exact absurd hsp3 (by simp)
            · rename_i hsp3 hsp4
              exact (hsp3 (fieldChars g ++ (strItemsO gs ++ tail)) rfl).elim
        · rename_i hsp2
          exact (hsp2 (strChars v ++ (strItemsO fs ++ tail)) rfl).elim
      · rename_i hsp
        exact (hsp ((k.data.map escChar).flatten ++
          ('"' :: (':' :: (strChars v ++ (strItemsO fs ++ tail))))) rfl).elim

lemma parseJson_stringify (v : JVal) (hnice : jsonNice v = true) :
    parseJson (jsStringify v) = some v := by
  unfold parseJson jsStringify
  have h := (parse_completeAll (strChars v).length).1 v [] hnice (by omega)
    (fun c cs hc => nomatch hc)
  rw [List.append_nil] at h
  rw [show (String.mk (strChars v)).length = (strChars v).length from rfl,
    show (String.mk (strChars v)).data = strChars v from rfl, h]
  rfl

lemma findSub_zero (l pat : List Char) (hp : pat.isPrefixOf l = true) (hpat : pat ≠ []) :
    findSub l pat = some 0 := by
  cases l with
  | nil =>
    cases pat with
    | nil => rfl
    | cons c cs => simp [List.isPrefixOf] at hp
  | cons c cs => simp [findSub, hp]

lemma findSub_append_end (l pat : List Char) (hpat : pat ≠ [])
    (h : ∀ i < l.length, pat.isPrefixOf ((l ++ pat).drop i) = false) :
    findSub (l ++ pat) pat = some l.length := by
  induction l with
  | nil =>
    simp only [List.nil_append, List.length_nil]
    exact findSub_zero pat pat (List.isPrefixOf_iff_prefix.mpr (List.prefix_refl pat)) hpat
  | cons a l ih =>
    have h0 := h 0 (by simp)
    rw [List.drop_zero, List.cons_append] at h0
    rw [List.cons_append]
    simp only [findSub, h0, Bool.false_eq_true, if_false]
    rw [ih (fun i hi => by
      have h2 := h (i + 1) (by simp; omega)
      rwa [List.cons_append, List.drop_succ_cons] at h2)]
    simp

lemma stateClose_no_cross (l : List Char)
    (h : ∀ i < l.length, stateClose.data.isPrefixOf (l.drop i) = false) :
    ∀ i < l.length, stateClose.data.isPrefixOf ((l ++ stateClose.data).drop i) = false := by
  intro i hi
  have hdrop : (l ++ stateClose.data).drop i = l.drop i ++ stateClose.data :=
    List.drop_append_of_le_length (le_of_lt hi)
  rw [hdrop]
  have hlen : 1 ≤ (l.drop i).length := by
    rw [List.length_drop]
    omega
  rw [show stateClose.data = ['-', '-', '>'] from rfl]
  rcases hld : l.drop i with _ | ⟨a, _ | ⟨b, _ | ⟨c, d4⟩⟩⟩
  · rw [hld] at hlen
    simp at hlen
  · simp [List.isPrefixOf]
  · simp [List.isPrefixOf]
  · have h2 := h i hi
    rw [hld, show stateClose.data = ['-', '-', '>'] from rfl] at h2
    simp only [List.cons_append, List.isPrefixOf] at h2 ⊢
    simpa using h2

lemma decode_encode (now : Int) (s : JVal) (hnice : jsonNice s = true)
    (hnc : ∀ i < (strChars s).length, stateClose.data.isPrefixOf ((strChars s).drop i) = false) :
    decodeState now (some (encodeState s)) = reviveState now s := by
  have henc : (encodeState s).data = stateOpen.data ++ (strChars s ++ stateClose.data) := by
    simp [encodeState, jsStringify]
  have hne : encodeState s ≠ "" := by
    intro hcontra
    have h2 := congrArg String.data hcontra
    rw [henc] at h2
    simp [stateOpen] at h2
  simp only [decodeState]
  rw [if_neg hne, henc]
  rw [findSub_zero _ _ (List.isPrefixOf_iff_prefix.mpr (List.prefix_append _ _))
    (by decide)]
  dsimp only []
  rw [show (0 + stateOpen.length) = stateOpen.data.length from rfl, List.drop_left]
  rw [findSub_append_end _ _ (by decide) (stateClose_no_cross _ hnc)]
  dsimp only []
  rw [List.take_left]
  rw [show String.mk (strChars s) = jsStringify s from rfl, parseJson_stringify s hnice]

lemma revivePlayer_date (now : Int) (pf : List (String × JVal)) (d : String) (t : Int)
    (hl : pf.lookup "date" = some (.str d)) (hne : d ≠ "") (hp : parseJsDate d = some t) :
    revivePlayer now (.obj pf) = .obj (setFieldVal "date" (.date (some t)) pf) := by
  unfold revivePlayer
  dsimp only []
  rw [hl]
  dsimp only []
  rw [if_pos (show jsTruthy (.str d) = true from bne_iff_ne.mpr hne)]
  rw [show jsNewDate (.str d) = parseJsDate d from rfl, hp]

/-- C2 (amended): for every valid roster state — a well-formed JS value
whose compact serialisation does not contain the close marker `-->` —
decoding the encoded envelope returns exactly the revived roster: every
player record keeps all its fields, and a non-empty `date` string that
denotes an instant is reconstituted as a `Date` carrying that same
instant. -/
theorem C2_state_roundtrip (now : Int) (s : JVal) (hnice : jsonNice s = true)
    (hnc : ∀ i < (strChars s).length,
      stateClose.data.isPrefixOf ((strChars s).drop i) = false) :
    decodeState now (some (encodeState s)) = reviveState now s ∧
    (∀ pf d t, pf.lookup "date" = some (.str d) → d ≠ "" → parseJsDate d = some t →
      revivePlayer now (.obj pf) = .obj (setFieldVal "date" (.date (some t)) pf)) :=
  ⟨decode_encode now s hnice hnc,
    fun pf d t hl hne hp => revivePlayer_date now pf d t hl hne hp⟩

/-- Witness for C2: a concrete one-player roster with an ISO timestamp
round-trips. -/
theorem C2_state_roundtrip_witness :
    decodeState 5 (some (encodeState witSt)) = reviveState 5 witSt ∧
    (∀ pf d t, pf.lookup "date" = some (.str d) → d ≠ "" → parseJsDate d = some t →
      revivePlayer 5 (.obj pf) = .obj (setFieldVal "date" (.date (some t)) pf)) :=
  C2_state_roundtrip 5 witSt (by decide) (by decide)

/-- Counterexample to C2 as stated: a roster record whose `dateRaw`
field (kept by `serialisePlayer`'s spread, and not sanitised by the
parsers) contains the close marker `-->` truncates the payload on
decode, so the decoded state is the empty roster rather than the
original. -/
theorem C2_close_marker_counterexample :
    jsonNice cexSt = true ∧
    decodeState 0 (some (encodeState cexSt)) = emptyState ∧
    reviveState 0 cexSt ≠ emptyState := by
  refine ⟨by decide, rfl, fun h => ?_⟩
  exact absurd (congrArg playersLen h) (by decide)

end LB
